import Mathlib

/-!
Verification of the `qwery` statement-builder and argument-binding engine
(`qwery/__init__.py`): a shallow embedding of its data model and operations,
followed by theorems checking the specification's claims against it.

Conventions of the embedding:
* Python values flowing through argument validation and JSON encoding are
  modelled by `JsonVal` (Python ints are unbounded, as is `Int`).
* Fallible Python code (KeyError, AssertionError, pydantic ValidationError,
  json decode errors, ...) returns `Option`/`Except`.
* `async` execution methods are modelled as pure functions that also return
  the trace of calls made on the external connection object, so that
  "the connection was never invoked" is a statement about the trace.
* pydantic / the json module are external collaborators; they are modelled
  at their contract boundary (validate value against declared type; JSON
  print/parse) as the specification itself prescribes.
-/

/-! ## Python-side semantic types

The `type` objects the source manipulates: `int`, `str`, `bool`, `Any`,
`Optional[T]` and the library's `JSONB[T]` generic (qwery/__init__.py lines
41-54). -/

inductive PyType where
  | int
  | str
  | bool
  | any
  | option (t : PyType)
  | jsonb (t : PyType)
  deriving DecidableEq, Repr

/-- Corresponds to `typing.get_origin(t) == JSONB` (used at lines 168 and 257). -/
def PyType.isJsonbOrigin : PyType → Bool
  | .jsonb _ => true
  | _ => false

/-- Corresponds to a pydantic-v1 `Optional[...]` field (not required, default None). -/
def PyType.isOptional : PyType → Bool
  | .option _ => true
  | _ => false

/-! ## Runtime values

`JsonVal` models the Python values appearing as call-time keyword arguments
and inside rows: None, bools, ints, strings, lists and dicts. -/

inductive JsonVal where
  | null
  | bool (b : Bool)
  | num (n : Int)
  | str (s : String)
  | arr (elems : List JsonVal)
  | obj (members : List (String × JsonVal))

/-! ## Model schema

A declared `Model` subclass: a table name plus the ordered field list
(`model.__fields__` / `typing.get_type_hints(model)`). -/

structure ModelField where
  name : String
  type : PyType
  deriving DecidableEq, Repr

structure PyModel where
  tableName : String
  fields : List ModelField
  deriving DecidableEq, Repr

/-- Corresponds to `typing.get_type_hints(self.model)[name]`: `some` the declared
type, `none` for a KeyError. -/
def PyModel.typeHint (m : PyModel) (name : String) : Option PyType :=
  (m.fields.find? (fun f => f.name = name)).map (fun f => f.type)

/-- Ordered field names, `self.model.__fields__.keys()`. -/
def PyModel.fieldNames (m : PyModel) : List String :=
  m.fields.map (fun f => f.name)

/-! ## The format-string tokenizer

`string.Formatter().parse(contents)` (used at qwery/__init__.py line 185).
It splits a template into chunks `(literal_text, field_name, format_spec,
conversion)`; `field_name`/`format_spec` are `None` exactly when the chunk
carries no replacement field.  Doubled braces terminate a literal chunk;
a lone closing brace or an unterminated field is a `ValueError` (`none`).
The embedding keeps Python's observable contract for the inputs the library
feeds it. -/

structure FormatPart where
  literal : String
  field : Option String
  spec : Option String
  conv : Option Char
  deriving DecidableEq, Repr

/-- Truthiness of `format_parts[i][1]` (`None` and `""` are falsy). -/
def fieldTruthy : Option String → Bool
  | none => false
  | some s => s ≠ ""

/-- Scan literal text up to a replacement field, the end of the string, or a
doubled brace.  Returns `(literal, markupFollows, rest)`; `none` models the
`ValueError` raised on a single `}`. -/
def scanLiteral : List Char → List Char → Option (List Char × Bool × List Char)
  | [], acc => some (acc.reverse, false, [])
  | '{' :: '{' :: rest, acc => some (('{' :: acc).reverse, false, rest)
  | '}' :: '}' :: rest, acc => some (('}' :: acc).reverse, false, rest)
  | '{' :: rest, acc => some (acc.reverse, true, rest)
  | '}' :: _, _ => none
  | c :: rest, acc => scanLiteral rest (c :: acc)

/-- Read the field name: chars up to `:`, `!` or `}`; a brace inside a field
name is an error. -/
def scanFieldName : List Char → List Char → Option (List Char × List Char)
  | [], _ => none
  | c :: rest, acc =>
    if c = ':' ∨ c = '!' ∨ c = '}' then some (acc.reverse, c :: rest)
    else if c = '{' then none
    else scanFieldName rest (c :: acc)

/-- Read a format spec after `:`, tracking brace nesting, up to the matching `}`. -/
def scanSpec : List Char → Nat → List Char → Option (List Char × List Char)
  | [], _, _ => none
  | '{' :: rest, depth, acc => scanSpec rest (depth + 1) ('{' :: acc)
  | '}' :: rest, depth, acc =>
    match depth with
    | 0 => some (acc.reverse, rest)
    | d + 1 => scanSpec rest d ('}' :: acc)
  | c :: rest, depth, acc => scanSpec rest depth (c :: acc)

/-- Parse one replacement field `{name}` / `{name:spec}` / `{name!c}` /
`{name!c:spec}` after its opening brace. -/
def scanMarkup (cs : List Char) : Option (String × String × Option Char × List Char) := do
  let (fname, rest) ← scanFieldName cs []
  match rest with
  | '}' :: rest2 => some (⟨fname⟩, "", none, rest2)
  | ':' :: rest2 => do
    let (spec, rest3) ← scanSpec rest2 0 []
    some (⟨fname⟩, ⟨spec⟩, none, rest3)
  | '!' :: c :: rest2 =>
    match rest2 with
    | '}' :: rest3 => some (⟨fname⟩, "", some c, rest3)
    | ':' :: rest3 => do
      let (spec, rest4) ← scanSpec rest3 0 []
      some (⟨fname⟩, ⟨spec⟩, some c, rest4)
    | _ => none
  | _ => none

/-- One pass of the tokenizer loop; the fuel only needs to cover the number of
chunks, which is at most the length of the input. -/
def formatParseLoop : Nat → List Char → Option (List FormatPart)
  | 0, [] => some []
  | 0, _ :: _ => none
  | fuel + 1, cs => do
    let (lit, markup, rest) ← scanLiteral cs []
    if markup then do
      let (fname, spec, conv, rest2) ← scanMarkup rest
      let tail ← formatParseLoop fuel rest2
      some (⟨⟨lit⟩, some fname, some spec, conv⟩ :: tail)
    else
      match rest with
      | [] => if lit.isEmpty then some [] else some [⟨⟨lit⟩, none, none, none⟩]
      | _ :: _ => do
        let tail ← formatParseLoop fuel rest
        some (⟨⟨lit⟩, none, none, none⟩ :: tail)

/-- Corresponds to `list(string.Formatter().parse(contents))`; `none` models a
`ValueError` for malformed templates. -/
def stringFormatterParse (s : String) : Option (List FormatPart) :=
  formatParseLoop (s.length + 1) s.data

/-! ## QueryBuilder (qwery/__init__.py lines 126-259)

A frozen dataclass: model, accumulated SQL, ordered argument list and the
returns-data flag.  `dataclasses.replace` becomes a functional record
update. -/

structure QueryArgument where
  name : String
  type : PyType
  deriving DecidableEq, Repr

structure QueryBuilder where
  model : PyModel
  sql : String
  args : List QueryArgument
  returnsData : Bool
  deriving DecidableEq, Repr

/-- Positional placeholder text `$N`. -/
def dollarRef (n : Nat) : String :=
  "$" ++ toString n

/-- The scan `for index, arg in enumerate(self.args): if arg.name == name`
inside `_with_arg` (lines 164-166): index of the first argument with the
given name. -/
def findIndexByName : List QueryArgument → String → Option Nat
  | [], _ => none
  | a :: rest, n =>
    if a.name = n then some 0
    else (findIndexByName rest n).map (fun i => i + 1)

/-- `QueryBuilder._with_sql` (lines 156-159): append a space-separated chunk
of SQL text, returning a fresh builder. -/
def QueryBuilder.withSql (b : QueryBuilder) (contents : String) : QueryBuilder :=
  let contents := if b.sql ≠ "" then " " ++ contents else contents
  { b with sql := b.sql ++ contents }

/-- `QueryBuilder._with_arg` (lines 161-177): reuse the positional index of an
existing argument with the same name (leaving the builder untouched), else
append a new argument at index `len(args) + 1`.  (The
`typing.get_origin(type_of) == JSONB: pass` block at lines 168-169 is a
no-op.) -/
def QueryBuilder.withArg (b : QueryBuilder) (name : String) (typeOf : PyType) :
    String × QueryBuilder :=
  match findIndexByName b.args name with
  | some index => (dollarRef (index + 1), b)
  | none =>
    (dollarRef (b.args.length + 1),
     { b with args := b.args ++ [⟨name, typeOf⟩] })

/-- `QueryBuilder._with_returns_data` (lines 179-180). -/
def QueryBuilder.withReturnsData (b : QueryBuilder) : QueryBuilder :=
  { b with returnsData := true }

/-- `SUPPORTED_ARGUMENT_TYPE_HINTS` (lines 129-132); `none` is the KeyError for
an unsupported hint name. -/
def SUPPORTED_ARGUMENT_TYPE_HINTS : String → Option PyType
  | "int" => some PyType.int
  | "str" => some PyType.str
  | _ => none

/-- Truthiness of the `typehint` variable (`None` and `""` are falsy). -/
def specTruthy : Option String → Bool
  | none => false
  | some s => s ≠ ""

def isWsChar (c : Char) : Bool :=
  c = ' ' ∨ c = '\t' ∨ c = '\n' ∨ c = '\r'

/-- `str.startswith(".")`. -/
def strStartsWithDot (s : String) : Bool :=
  match s.data with
  | '.' :: _ => true
  | _ => false

/-- `str.strip()`. -/
def pyStrip (s : String) : String :=
  ⟨((s.data.dropWhile isWsChar).reverse.dropWhile isWsChar).reverse⟩

/-- The declared type computed for one replacement field by
`_parse_arguments` (lines 197-207): `Any` by default; the model field's
declared type for a `{.field}` reference (an explicit hint combined with it
is an AssertionError, and an unknown model field a KeyError); a type from
`SUPPORTED_ARGUMENT_TYPE_HINTS` for `{name: hint}`.  Returns the resolved
argument name and its type. -/
def resolveFieldType (model : PyModel) (fieldContents : String)
    (typehint : Option String) : Option (String × PyType) :=
  if strStartsWithDot fieldContents then
    if specTruthy typehint then none
    else
      let fieldContents := fieldContents.drop 1
      match model.typeHint fieldContents with
      | none => none
      | some t => some (fieldContents, t)
  else
    if specTruthy typehint then
      match SUPPORTED_ARGUMENT_TYPE_HINTS (pyStrip (typehint.getD "")) with
      | none => none
      | some t => some (fieldContents, t)
    else
      some (fieldContents, PyType.any)

/-- The `for (unrelated_text, field_contents, typehint, y) in format_parts`
loop of `_parse_arguments` (lines 191-212). -/
def parseArgsLoop : List FormatPart → String → QueryBuilder →
    Option (String × QueryBuilder)
  | [], out, b => some (out, b)
  | p :: rest, out, b =>
    let out := out ++ p.literal
    if fieldTruthy p.field then
      match resolveFieldType b.model (p.field.getD "") p.spec with
      | none => none
      | some (name, t) =>
        let (argRef, b') := b.withArg name t
        parseArgsLoop rest (out ++ argRef) b'
    else
      parseArgsLoop rest out b

/-- `QueryBuilder._parse_arguments` (lines 182-212), including the fast path
for a template with no replacement fields (lines 188-189). -/
def QueryBuilder.parseArguments (b : QueryBuilder) (contents : String) :
    Option (String × QueryBuilder) :=
  match stringFormatterParse contents with
  | none => none
  | some formatParts =>
    match formatParts with
    | [p] =>
      if fieldTruthy p.field then parseArgsLoop [p] "" b
      else some (p.literal, b)
    | _ => parseArgsLoop formatParts "" b

/-! ## Builder transformations and terminals (lines 214-259, 345-406) -/

/-- The `Union[int, str]` parameter of `limit`/`offset`. -/
inductive IntOrStr where
  | int (n : Int)
  | str (s : String)
  deriving DecidableEq, Repr

/-- `QueryBuilder.offset` (lines 214-218). -/
def QueryBuilder.offset (b : QueryBuilder) (amount : IntOrStr) :
    Option QueryBuilder :=
  match amount with
  | .int n => some (b.withSql ("OFFSET " ++ toString n))
  | .str s =>
    match b.parseArguments s with
    | none => none
    | some (amount, b') => some (b'.withSql ("OFFSET " ++ amount))

/-- `QueryBuilder.limit` (lines 220-224). -/
def QueryBuilder.limit (b : QueryBuilder) (amount : IntOrStr) :
    Option QueryBuilder :=
  match amount with
  | .int n => some (b.withSql ("LIMIT " ++ toString n))
  | .str s =>
    match b.parseArguments s with
    | none => none
    | some (amount, b') => some (b'.withSql ("LIMIT " ++ amount))

/-- `QueryBuilder.raw` (lines 226-228). -/
def QueryBuilder.raw (b : QueryBuilder) (sql : String) : Option QueryBuilder :=
  match b.parseArguments sql with
  | none => none
  | some (sql, b') => some (b'.withSql sql)

/-- `_where_mixin_fn` (lines 349-351), installed as `where` on the select,
delete and update builders. -/
def whereMixinFn (b : QueryBuilder) (query : String) : Option QueryBuilder :=
  match b.parseArguments query with
  | none => none
  | some (query, b') => some (b'.withSql ("WHERE " ++ query))

/-- `_returning_mixin_fn` (lines 345-346), installed as `returning` on the
delete, update and insert builders. -/
def returningMixinFn (b : QueryBuilder) : QueryBuilder :=
  (b.withSql "RETURNING *").withReturnsData

/-- `SelectQueryBuilder.group_by` (lines 357-359). -/
def QueryBuilder.groupBy (b : QueryBuilder) (target : String) :
    Option QueryBuilder :=
  match b.parseArguments target with
  | none => none
  | some (target, b') => some (b'.withSql ("GROUP BY " ++ target))

/-- `SelectQueryBuilder.order_by` (lines 361-364); `direction` defaults to
`"ASC"` at the call sites that omit it. -/
def QueryBuilder.orderBy (b : QueryBuilder) (target : String)
    (direction : String) : Option QueryBuilder :=
  match b.parseArguments target with
  | none => none
  | some (target, b') =>
    match b'.parseArguments direction with
    | none => none
    | some (direction, b'') =>
      some (b''.withSql ("ORDER BY " ++ target ++ " " ++ direction))

/-- The `Union[Model, str]` first parameter of `join`. -/
inductive JoinTarget where
  | model (m : PyModel)
  | str (s : String)
  deriving DecidableEq, Repr

/-- `SelectQueryBuilder.join` (lines 366-386). -/
def QueryBuilder.join (b : QueryBuilder) (targetModel : JoinTarget)
    (onExpr : String) (aliasName : Option String) (direction : Option String) :
    Option QueryBuilder :=
  let targetModel :=
    match targetModel with
    | .model m => m.tableName
    | .str s => s
  let targetModel :=
    match aliasName with
    | some a => targetModel ++ " " ++ a
    | none => targetModel
  match b.parseArguments onExpr with
  | none => none
  | some (onExpr, b') =>
    let direction := direction.getD ""
    let direction := if direction ≠ "" then direction ++ " " else direction
    some (b'.withSql (direction ++ "JOIN " ++ targetModel ++ " ON " ++ onExpr))

/-- `InsertQueryBuilder.on_conflict` (lines 402-406); `action` defaults to
`"DO NOTHING"` at the call sites that omit it. -/
def QueryBuilder.onConflict (b : QueryBuilder) (conflict : String)
    (action : String) : Option QueryBuilder :=
  match b.parseArguments action with
  | none => none
  | some (action, b') =>
    some (b'.withSql ("ON CONFLICT (" ++ conflict ++ ") " ++ action))

/-! ## The argument-validation schema and the Method wrappers
(lines 63-124, 230-259) -/

/-- One field of the pydantic model produced by `build_argument_model`
(lines 250-259): name, declared type (always required, `(arg.type, ...)`),
and the `jsonb` marker placed in `field_info.extra` for `JSONB[...]`-typed
arguments. -/
structure ArgField where
  name : String
  type : PyType
  jsonb : Bool
  deriving DecidableEq, Repr

/-- `QueryBuilder.build_argument_model` (lines 250-259). -/
def QueryBuilder.buildArgumentModel (b : QueryBuilder) : List ArgField :=
  b.args.map (fun arg => ⟨arg.name, arg.type, arg.type.isJsonbOrigin⟩)

/-- `Method.__init__` (lines 63-67): an execution wrapper owns the finished
builder plus the validation schema built from its argument registry. -/
structure MethodData where
  query : QueryBuilder
  argumentModel : List ArgField
  deriving DecidableEq, Repr

/-- Corresponds to constructing any `Method` subclass on a query. -/
def Method.ofQuery (q : QueryBuilder) : MethodData :=
  ⟨q, q.buildArgumentModel⟩

/-- The `Method.sql` property (lines 82-84). -/
def MethodData.sql (m : MethodData) : String :=
  m.query.sql

/-- `QueryBuilder.fetch_one` (lines 230-235): a `ValueError` when the builder
does not return data, otherwise a `FetchOneMethod`. -/
def QueryBuilder.fetch_one (b : QueryBuilder) : Except String MethodData :=
  if b.returnsData = false then
    .error "cannot call fetch_one on a query that does not return data"
  else
    .ok (Method.ofQuery b)

/-- `QueryBuilder.fetch_all` (lines 237-242); note the source reuses the
`fetch_one` wording in this error message too. -/
def QueryBuilder.fetch_all (b : QueryBuilder) : Except String MethodData :=
  if b.returnsData = false then
    .error "cannot call fetch_one on a query that does not return data"
  else
    .ok (Method.ofQuery b)

/-- `QueryBuilder.prepare` (lines 244-245): no returns-data precondition. -/
def QueryBuilder.prepare (b : QueryBuilder) : Except String MethodData :=
  .ok (Method.ofQuery b)

/-- `QueryBuilder.execute` (lines 247-248): no returns-data precondition. -/
def QueryBuilder.execute (b : QueryBuilder) : Except String MethodData :=
  .ok (Method.ofQuery b)

/-! ## Statement factories: `Query` (lines 262-342) -/

/-- `Query.select` (lines 266-286).  Note the asymmetry in the source: the
field prefix uses the truthiness of `alias` while the table suffix uses
`alias is not None`. -/
def Query.select (model : PyModel) (selection : Option String)
    (aliasName : Option String) : QueryBuilder :=
  let prefStr :=
    match aliasName with
    | some a => if a ≠ "" then a ++ "." else ""
    | none => ""
  let selection :=
    match selection with
    | some s => if s ≠ "" then s
        else String.intercalate ", " (model.fieldNames.map (fun f => prefStr ++ f))
    | none => String.intercalate ", " (model.fieldNames.map (fun f => prefStr ++ f))
  let tableName :=
    match aliasName with
    | some a => model.tableName ++ " " ++ a
    | none => model.tableName
  { model := model
    sql := "SELECT " ++ selection ++ " FROM " ++ tableName
    args := []
    returnsData := true }

/-- `Query.delete` (lines 288-291). -/
def Query.delete (model : PyModel) : QueryBuilder :=
  { model := model
    sql := "DELETE FROM " ++ model.tableName
    args := []
    returnsData := false }

/-- The positional-field loop of `Query.update` (lines 297-301). -/
def updatePositionalLoop (model : PyModel) : List String →
    List String → QueryBuilder → Option (List String × QueryBuilder)
  | [], stmts, b => some (stmts.reverse, b)
  | arg :: rest, stmts, b =>
    match model.typeHint arg with
    | none => none
    | some t =>
      let (argRef, b') := b.withArg arg t
      updatePositionalLoop model rest ((arg ++ " = " ++ argRef) :: stmts) b'

/-- The keyword-expression loop of `Query.update` (lines 303-305) and of
`Query.insert` (lines 334-336). -/
def kwargExpressionLoop : List (String × String) →
    List (String × String) → QueryBuilder →
    Option (List (String × String) × QueryBuilder)
  | [], acc, b => some (acc.reverse, b)
  | (key, value) :: rest, acc, b =>
    match b.parseArguments value with
    | none => none
    | some (value, b') => kwargExpressionLoop rest ((key, value) :: acc) b'

/-- `Query.update` (lines 293-309): positional field names each append an
argument typed from the model; keyword expressions are run through the
fragment parser verbatim. -/
def Query.update (model : PyModel) (args : List String)
    (kwargs : List (String × String)) : Option QueryBuilder :=
  let builder : QueryBuilder := ⟨model, "", [], false⟩
  match updatePositionalLoop model args [] builder with
  | none => none
  | some (setStatements, builder) =>
    match kwargExpressionLoop kwargs [] builder with
    | none => none
    | some (kwStatements, builder) =>
      let setStatements := setStatements ++ kwStatements.map
        (fun kv => kv.1 ++ " = " ++ kv.2)
      some (builder.withSql
        ("UPDATE " ++ model.tableName ++ " SET " ++
         String.intercalate ", " setStatements))

/-- The per-field loop of `Query.insert` (lines 322-332): every model field
not excluded and not overridden by a keyword expression becomes a bound
placeholder. -/
def insertFieldLoop (model : PyModel) (exclude : List String)
    (kwargKeys : List String) : List String →
    List (String × String) → QueryBuilder →
    Option (List (String × String) × QueryBuilder)
  | [], acc, b => some (acc.reverse, b)
  | fieldName :: rest, acc, b =>
    if exclude ≠ [] ∧ fieldName ∈ exclude then
      insertFieldLoop model exclude kwargKeys rest acc b
    else if fieldName ∈ kwargKeys then
      insertFieldLoop model exclude kwargKeys rest acc b
    else
      match model.typeHint fieldName with
      | none => none
      | some t =>
        let (argRef, b') := b.withArg fieldName t
        insertFieldLoop model exclude kwargKeys rest ((fieldName, argRef) :: acc) b'

/-- `Query.insert` (lines 311-342).  `exclude` is `Optional[Set[str]]` guarded
by truthiness, so an absent set and an empty set behave alike; the ordered
`args` dict holds fields first, keyword expressions after. -/
def Query.insert (model : PyModel) (exclude : List String)
    (kwargs : List (String × String)) : Option QueryBuilder :=
  let builder : QueryBuilder := ⟨model, "", [], false⟩
  match insertFieldLoop model exclude (kwargs.map Prod.fst)
      model.fieldNames [] builder with
  | none => none
  | some (fieldArgs, builder) =>
    match kwargExpressionLoop kwargs [] builder with
    | none => none
    | some (kwArgs, builder) =>
      let argsDict := fieldArgs ++ kwArgs
      let fields := String.intercalate ", " (argsDict.map Prod.fst)
      let values := String.intercalate ", " (argsDict.map Prod.snd)
      some (builder.withSql
        ("INSERT INTO " ++ model.tableName ++ " (" ++ fields ++ ") VALUES (" ++
         values ++ ")"))

/-- Modelled from the spec: `Query.dynamic_update` is exercised by the
repository's tests (`test_compile_dynamic_update_query` expects the template
`UPDATE test SET {dynamic} WHERE a = $1`) but its implementation is not among
the sources at hand.  Per spec section 4.4, it produces an update builder
whose SQL template carries a literal `{dynamic}` placeholder and registers no
fixed arguments. -/
def Query.dynamicUpdate (model : PyModel) : QueryBuilder :=
  { model := model
    sql := "UPDATE " ++ model.tableName ++ " SET \x7bdynamic\x7d"
    args := []
    returnsData := false }

/-- Modelled from the spec: at call time the dynamic-update wrapper assigns
each extra keyword key that is not already bound as a fixed argument the next
sequential placeholder index after the fixed arguments ("appending `col = $N`
fragments with indices continuing from the fixed-argument count", spec
sections 4.4 and 9). -/
def dynamicAssignments (b : QueryBuilder) (extraKeys : List String) :
    List (String × Nat) :=
  let extras := extraKeys.filter (fun k => ¬ b.args.any (fun a => a.name = k))
  (extras.enum).map (fun ki => (ki.2, b.args.length + 1 + ki.1))

/-! ## The `json` collaborator: `json.dumps` / `json.loads`

Modelled at the stdlib contract the source relies on (lines 51-52 and 74-78):
printing a value as standard JSON text (`", "`/`": "` separators, `"` and `\`
escaped) and parsing JSON text back.  JSON numbers are modelled as integers;
the parser tolerates the whitespace `json.loads` accepts. -/

def skipWs (cs : List Char) : List Char :=
  cs.dropWhile isWsChar

def digitChar (n : Nat) : Char :=
  Char.ofNat (48 + n)

def natToDigits (n : Nat) : List Char :=
  if _h : n < 10 then [digitChar n]
  else natToDigits (n / 10) ++ [digitChar (n % 10)]
decreasing_by
  exact Nat.div_lt_self (by omega) (by omega)

def intToChars (n : Int) : List Char :=
  if n < 0 then '-' :: natToDigits (-n).toNat else natToDigits n.toNat

def escapeStringChar (c : Char) : List Char :=
  if c = '"' ∨ c = '\\' then ['\\', c] else [c]

def escapeChars (cs : List Char) : List Char :=
  cs.flatMap escapeStringChar

mutual

def printJson : JsonVal → List Char
  | .null => 'n' :: 'u' :: 'l' :: 'l' :: []
  | .bool true => 't' :: 'r' :: 'u' :: 'e' :: []
  | .bool false => 'f' :: 'a' :: 'l' :: 's' :: 'e' :: []
  | .num n => intToChars n
  | .str s => '"' :: escapeChars s.data ++ ['"']
  | .arr [] => '[' :: ']' :: []
  | .arr (x :: xs) => '[' :: printElems x xs ++ [']']
  | .obj [] => '{' :: '}' :: []
  | .obj (m :: ms) => '{' :: printMembers m ms ++ ['}']
termination_by v => sizeOf v

def printElems (x : JsonVal) (xs : List JsonVal) : List Char :=
  match xs with
  | [] => printJson x
  | y :: ys => printJson x ++ ',' :: ' ' :: printElems y ys
termination_by sizeOf x + sizeOf xs

def printMembers (m : String × JsonVal) (ms : List (String × JsonVal)) :
    List Char :=
  match m, ms with
  | (k, v), [] => '"' :: escapeChars k.data ++ '"' :: ':' :: ' ' :: printJson v
  | (k, v), m' :: ms' =>
    ('"' :: escapeChars k.data ++ '"' :: ':' :: ' ' :: printJson v) ++
      ',' :: ' ' :: printMembers m' ms'
termination_by sizeOf m + sizeOf ms

end

/-- String-body parser: everything up to the unescaped closing quote, with
`\c` decoding to `c`. -/
def parseStrChars : List Char → Option (List Char × List Char)
  | [] => none
  | c :: rest =>
    if c = '"' then some ([], rest)
    else if c = '\\' then
      match rest with
      | [] => none
      | c2 :: rest2 =>
        match parseStrChars rest2 with
        | none => none
        | some (s, r) => some (c2 :: s, r)
    else
      match parseStrChars rest with
      | none => none
      | some (s, r) => some (c :: s, r)

def digitVal (c : Char) : Nat :=
  c.toNat - 48

def digitsToNat (ds : List Char) : Nat :=
  ds.foldl (fun acc c => 10 * acc + digitVal c) 0

def parseNumber (cs : List Char) : Option (Int × List Char) :=
  match cs with
  | [] => none
  | c :: rest =>
    if c = '-' then
      let ds := rest.takeWhile Char.isDigit
      if ds.isEmpty then none
      else some (-(digitsToNat ds : Int), rest.dropWhile Char.isDigit)
    else
      let ds := (c :: rest).takeWhile Char.isDigit
      if ds.isEmpty then none
      else some ((digitsToNat ds : Int), (c :: rest).dropWhile Char.isDigit)

mutual

def parseJson : Nat → List Char → Option (JsonVal × List Char)
  | 0, _ => none
  | fuel + 1, cs =>
    match skipWs cs with
    | [] => none
    | c :: rest =>
      if c = 'n' then
        match rest with
        | 'u' :: 'l' :: 'l' :: rest2 => some (.null, rest2)
        | _ => none
      else if c = 't' then
        match rest with
        | 'r' :: 'u' :: 'e' :: rest2 => some (.bool true, rest2)
        | _ => none
      else if c = 'f' then
        match rest with
        | 'a' :: 'l' :: 's' :: 'e' :: rest2 => some (.bool false, rest2)
        | _ => none
      else if c = '"' then
        match parseStrChars rest with
        | none => none
        | some (s, r) => some (.str ⟨s⟩, r)
      else if c = '[' then
        match skipWs rest with
        | ']' :: rest2 => some (.arr [], rest2)
        | rest2 =>
          match parseElemsLoop fuel rest2 with
          | none => none
          | some (xs, rest3) => some (.arr xs, rest3)
      else if c = '{' then
        match skipWs rest with
        | '}' :: rest2 => some (.obj [], rest2)
        | rest2 =>
          match parseMembersLoop fuel rest2 with
          | none => none
          | some (ms, rest3) => some (.obj ms, rest3)
      else
        match parseNumber (c :: rest) with
        | none => none
        | some (n, rest2) => some (.num n, rest2)

def parseElemsLoop : Nat → List Char → Option (List JsonVal × List Char)
  | 0, _ => none
  | fuel + 1, cs =>
    match parseJson fuel cs with
    | none => none
    | some (v, rest) =>
      match skipWs rest with
      | ',' :: rest2 =>
        match parseElemsLoop fuel rest2 with
        | none => none
        | some (xs, rest3) => some (v :: xs, rest3)
      | ']' :: rest2 => some ([v], rest2)
      | _ => none

def parseMembersLoop : Nat → List Char → Option (List (String × JsonVal) × List Char)
  | 0, _ => none
  | fuel + 1, cs =>
    match skipWs cs with
    | '"' :: r =>
      match parseStrChars r with
      | none => none
      | some (k, r1) =>
        match skipWs r1 with
        | ':' :: r2 =>
          match parseJson fuel r2 with
          | none => none
          | some (v, r3) =>
            match skipWs r3 with
            | ',' :: r4 =>
              match parseMembersLoop fuel r4 with
              | none => none
              | some (ms, r5) => some ((⟨k⟩, v) :: ms, r5)
            | '}' :: r4 => some ([(⟨k⟩, v)], r4)
            | _ => none
        | _ => none
    | _ => none

end

/-- `json.dumps(v)`. -/
def json_dumps (v : JsonVal) : String :=
  ⟨printJson v⟩

/-- `json.loads(s)`; `none` models a `json.JSONDecodeError` (a `ValueError`). -/
def json_loads (s : String) : Option JsonVal :=
  match parseJson (s.length + 1) s.data with
  | none => none
  | some (v, rest) => if (skipWs rest).isEmpty then some v else none

/-! ## Value validation (the pydantic collaborator) and `JSONB.validate`

The validation library is specified at its boundary (spec section 6): given a
declared type and a supplied value, return the coerced value or an error
message.  `JSONB.validate` itself is source code (lines 49-54): a string is
first `json.loads`-ed, then the payload is validated against the declared
sub-type. -/

def parseIntStringChars (cs : List Char) : Option Int :=
  match parseNumber cs with
  | some (n, []) => some n
  | _ => none

def validateValue : PyType → JsonVal → Except String JsonVal
  | .any, v => .ok v
  | .option _, .null => .ok .null
  | .option t, v => validateValue t v
  | .int, .num n => .ok (.num n)
  | .int, .bool b => .ok (.num (if b then 1 else 0))
  | .int, .str s =>
    match parseIntStringChars s.data with
    | some n => .ok (.num n)
    | none => .error "value is not a valid integer"
  | .int, _ => .error "value is not a valid integer"
  | .str, .str s => .ok (.str s)
  | .str, .num n => .ok (.str ⟨intToChars n⟩)
  | .str, _ => .error "str type expected"
  | .bool, .bool b => .ok (.bool b)
  | .bool, .num n =>
    if n = 0 then .ok (.bool false)
    else if n = 1 then .ok (.bool true)
    else .error "value could not be parsed to a boolean"
  | .bool, .str s =>
    if s = "true" ∨ s = "True" ∨ s = "1" then .ok (.bool true)
    else if s = "false" ∨ s = "False" ∨ s = "0" then .ok (.bool false)
    else .error "value could not be parsed to a boolean"
  | .bool, _ => .error "value could not be parsed to a boolean"
  | .jsonb t, .str s =>
    match json_loads s with
    | none => .error "Invalid JSON"
    | some payload => validateValue t payload
  | .jsonb t, v => validateValue t v

/-- `JSONB.validate` (lines 49-54) as its own definition: a string value is
`json.loads`-ed first, then the payload is validated against the declared
sub-type; a structured value goes to the sub-type validator directly.  (In
`validateValue` this body is inlined at the `.jsonb` case so that the
recursion stays structural; `validateValue_jsonb` records the agreement.) -/
def JSONB.validate (t : PyType) (v : JsonVal) : Except String JsonVal :=
  match v with
  | .str s =>
    match json_loads s with
    | none => .error "Invalid JSON"
    | some payload => validateValue t payload
  | _ => validateValue t v

theorem validateValue_jsonb (t : PyType) (v : JsonVal) :
    validateValue (.jsonb t) v = JSONB.validate t v := by
  cases v <;> rfl

/-! ## Call-time argument validation and `_process_arguments` (lines 69-80) -/

/-- The error taxonomy surfaced by the execution strategies: pydantic
`ValidationError` (structured per-field `(loc, msg)` entries), `ModelNotFound`
(lines 24-25), and a hard `AttributeError` crash. -/
inductive PyError where
  | validation (errs : List (String × String))
  | notFound
  | attrError (msg : String)

def lookupKw (kwargs : List (String × JsonVal)) (name : String) : Option JsonVal :=
  (kwargs.find? (fun kv => kv.1 = name)).map Prod.snd

/-- Instantiating the pydantic argument model, `self._argument_model(**arguments)`
(line 70): every declared field is required (`(arg.type, ...)` at line 253),
extra keyword values are ignored, and per-field errors are collected into one
structured `ValidationError`. -/
def validateFields (fields : List ArgField) (kwargs : List (String × JsonVal)) :
    Except (List (String × String)) (List (String × JsonVal)) :=
  let results := fields.map (fun f =>
    match lookupKw kwargs f.name with
    | none => Sum.inl (f.name, "field required")
    | some v =>
      match validateValue f.type v with
      | .error msg => Sum.inl (f.name, msg)
      | .ok v' => Sum.inr (f.name, v'))
  let errs := results.filterMap (fun r =>
    match r with | .inl e => some e | .inr _ => none)
  if errs.isEmpty then
    .ok (results.filterMap (fun r =>
      match r with | .inr x => some x | .inl _ => none))
  else
    .error errs

/-- Instantiating the row model, `self._query.model(**dict(result))`
(lines 105, 110, 123): like `validateFields`, except that a pydantic-v1
`Optional[...]` field is not required and defaults to `None`. -/
def modelValidate (m : PyModel) (row : List (String × JsonVal)) :
    Except (List (String × String)) (List (String × JsonVal)) :=
  let results := m.fields.map (fun f =>
    match lookupKw row f.name with
    | none =>
      if f.type.isOptional then Sum.inr (f.name, JsonVal.null)
      else Sum.inl (f.name, "field required")
    | some v =>
      match validateValue f.type v with
      | .error msg => Sum.inl (f.name, msg)
      | .ok v' => Sum.inr (f.name, v'))
  let errs := results.filterMap (fun r =>
    match r with | .inl e => some e | .inr _ => none)
  if errs.isEmpty then
    .ok (results.filterMap (fun r =>
      match r with | .inr x => some x | .inl _ => none))
  else
    .error errs

/-- The body of the `for key, field_obj in inst.__fields__.items()` loop of
`Method._process_arguments` (lines 72-79): a `jsonb`-flagged argument whose
validated value is a dict is serialized with `json.dumps`; any other value
reaches `value.json()`, which only pydantic model instances provide (model
instances lie outside this embedding's value universe; on values such as
`None` the source crashes with an `AttributeError` just like this does). -/
def processArgValue (f : ArgField) (v : JsonVal) : Except PyError JsonVal :=
  if f.jsonb then
    match v with
    | .obj members => .ok (.str (json_dumps (.obj members)))
    | _ => .error (.attrError "value has no attribute json")
  else
    .ok v

def processLoop : List ArgField → List (String × JsonVal) →
    Except PyError (List JsonVal)
  | [], _ => .ok []
  | f :: rest, inst =>
    match lookupKw inst f.name with
    | none => .error (.attrError "getattr")
    | some v =>
      match processArgValue f v with
      | .error e => .error e
      | .ok v' =>
        match processLoop rest inst with
        | .error e => .error e
        | .ok vs => .ok (v' :: vs)

/-- `Method._process_arguments` (lines 69-80): validate the call-time keyword
values against the argument model, then emit the positional value list in
declaration order, JSON-encoding `jsonb` arguments. -/
def processArguments (m : MethodData) (kwargs : List (String × JsonVal)) :
    Except PyError (List JsonVal) :=
  match validateFields m.argumentModel kwargs with
  | .error errs => .error (.validation errs)
  | .ok inst => processLoop m.argumentModel inst

/-! ## Execution strategies (lines 87-124)

The external connection is a record of canned responses; each strategy
returns its result together with the trace of connection invocations, so
"the connection is never invoked" is `trace = []`. -/

structure Conn where
  fetchrowResult : Option (List (String × JsonVal))
  fetchResult : List (List (String × JsonVal))
  cursorResult : List (List (String × JsonVal))

inductive ConnCall where
  | execute (sql : String) (args : List JsonVal)
  | prepare (sql : String) (args : List JsonVal)
  | fetchrow (sql : String) (args : List JsonVal)
  | fetch (sql : String) (args : List JsonVal)
  | cursor (sql : String) (args : List JsonVal)

/-- `ExecuteMethod.__call__` (lines 87-90). -/
def ExecuteMethod.call (m : MethodData) (_conn : Conn)
    (kwargs : List (String × JsonVal)) : Except PyError Unit × List ConnCall :=
  match processArguments m kwargs with
  | .error e => (.error e, [])
  | .ok args => (.ok (), [.execute m.sql args])

/-- `PrepareMethod.__call__` (lines 93-96); the prepared-statement handle is
opaque, so the interesting observable is the trace. -/
def PrepareMethod.call (m : MethodData) (_conn : Conn)
    (kwargs : List (String × JsonVal)) : Except PyError Unit × List ConnCall :=
  match processArguments m kwargs with
  | .error e => (.error e, [])
  | .ok args => (.ok (), [.prepare m.sql args])

/-- `FetchOneMethod.__call__` (lines 99-105): `ModelNotFound` on a missing
row, otherwise the row decoded through the model schema. -/
def FetchOneMethod.call (m : MethodData) (conn : Conn)
    (kwargs : List (String × JsonVal)) :
    Except PyError (List (String × JsonVal)) × List ConnCall :=
  match processArguments m kwargs with
  | .error e => (.error e, [])
  | .ok args =>
    let trace := [ConnCall.fetchrow m.sql args]
    match conn.fetchrowResult with
    | none => (.error .notFound, trace)
    | some row =>
      match modelValidate m.query.model row with
      | .error errs => (.error (.validation errs), trace)
      | .ok inst => (.ok inst, trace)

/-- Row-by-row decoding used by `FetchAllMethod.__call__` and `.cursor`;
the first failing row aborts the whole call with its `ValidationError`. -/
def decodeRows (m : PyModel) : List (List (String × JsonVal)) →
    Except PyError (List (List (String × JsonVal)))
  | [] => .ok []
  | r :: rs =>
    match modelValidate m r with
    | .error errs => .error (.validation errs)
    | .ok inst =>
      match decodeRows m rs with
      | .error e => .error e
      | .ok tail => .ok (inst :: tail)

/-- `FetchAllMethod.rows` (lines 115-118): the raw rows. -/
def FetchAllMethod.rows (m : MethodData) (conn : Conn)
    (kwargs : List (String × JsonVal)) :
    Except PyError (List (List (String × JsonVal))) × List ConnCall :=
  match processArguments m kwargs with
  | .error e => (.error e, [])
  | .ok args => (.ok conn.fetchResult, [.fetch m.sql args])

/-- `FetchAllMethod.__call__` (lines 109-110): every row decoded through the
model schema. -/
def FetchAllMethod.call (m : MethodData) (conn : Conn)
    (kwargs : List (String × JsonVal)) :
    Except PyError (List (List (String × JsonVal))) × List ConnCall :=
  match FetchAllMethod.rows m conn kwargs with
  | (.error e, tr) => (.error e, tr)
  | (.ok rows, tr) =>
    match decodeRows m.query.model rows with
    | .error e => (.error e, tr)
    | .ok insts => (.ok insts, tr)

/-- `FetchAllMethod.tuples` (lines 112-113): each raw row as its value
tuple. -/
def FetchAllMethod.tuples (m : MethodData) (conn : Conn)
    (kwargs : List (String × JsonVal)) :
    Except PyError (List (List JsonVal)) × List ConnCall :=
  match FetchAllMethod.rows m conn kwargs with
  | (.error e, tr) => (.error e, tr)
  | (.ok rows, tr) => (.ok (rows.map (fun r => r.map Prod.snd)), tr)

/-- `FetchAllMethod.cursor` (lines 120-123): rows streamed from the
server-side cursor, decoded through the model schema. -/
def FetchAllMethod.cursor (m : MethodData) (conn : Conn)
    (kwargs : List (String × JsonVal)) :
    Except PyError (List (List (String × JsonVal))) × List ConnCall :=
  match processArguments m kwargs with
  | .error e => (.error e, [])
  | .ok args =>
    let trace := [ConnCall.cursor m.sql args]
    match decodeRows m.query.model conn.cursorResult with
    | .error e => (.error e, trace)
    | .ok insts => (.ok insts, trace)

/-! ## The transformation alphabet and builder-object store

`Transformation` enumerates the fluent transformations of a statement
builder (spec section 4.3).  For the frame/immutability claim the Python
object graph is made explicit: builder objects live in an append-only arena
(`dataclasses.replace` on a frozen dataclass always allocates a fresh
object), and a transformation maps an object reference to a fresh
reference. -/

inductive Transformation where
  | whereT (query : String)
  | joinT (target : JoinTarget) (onExpr : String) (aliasName : Option String)
      (direction : Option String)
  | groupByT (target : String)
  | orderByT (target : String) (direction : String)
  | limitT (amount : IntOrStr)
  | offsetT (amount : IntOrStr)
  | onConflictT (conflict : String) (action : String)
  | returningT
  | rawT (sql : String)

def Transformation.apply : Transformation → QueryBuilder → Option QueryBuilder
  | .whereT q, b => whereMixinFn b q
  | .joinT t o a d, b => b.join t o a d
  | .groupByT t, b => b.groupBy t
  | .orderByT t d, b => b.orderBy t d
  | .limitT a, b => b.limit a
  | .offsetT a, b => b.offset a
  | .onConflictT c a, b => b.onConflict c a
  | .returningT, b => some (returningMixinFn b)
  | .rawT s, b => b.raw s

/-- A transformation at the object level: read the builder object behind the
reference, run the pure transformation, allocate the result as a fresh
object.  `none` models the exceptions the transformation can raise. -/
def Transformation.applyRef (t : Transformation) (store : List QueryBuilder)
    (r : Nat) : Option (Nat × List QueryBuilder) :=
  match store.get? r with
  | none => none
  | some b =>
    match t.apply b with
    | none => none
    | some b' => some (store.length, store ++ [b'])

/-- One builder-chain step: some transformation turns `b` into `b'`. -/
def BuilderStep (b b' : QueryBuilder) : Prop :=
  ∃ t : Transformation, t.apply b = some b'

/-- A chain of zero or more builder transformations. -/
def BuilderChain : QueryBuilder → QueryBuilder → Prop :=
  Relation.ReflTransGen BuilderStep

/-! ## Instrumented fragment parsing

`parseArgsLoopTrace` is `parseArgsLoop` with one addition for specification
purposes: it records, for every replacement field, the resolved argument
name, the placeholder text `_with_arg` returned for it, and the declared
type it was resolved with.  `parseArgumentsTrace_agrees` ties it back to the
uninstrumented source translation. -/

structure ResolutionRecord where
  name : String
  ref : String
  type : PyType
  deriving DecidableEq, Repr

def parseArgsLoopTrace : List FormatPart → String → QueryBuilder →
    List ResolutionRecord → Option (String × QueryBuilder × List ResolutionRecord)
  | [], out, b, tr => some (out, b, tr)
  | p :: rest, out, b, tr =>
    let out := out ++ p.literal
    if fieldTruthy p.field then
      match resolveFieldType b.model (p.field.getD "") p.spec with
      | none => none
      | some (name, t) =>
        let (argRef, b') := b.withArg name t
        parseArgsLoopTrace rest (out ++ argRef) b' (tr ++ [⟨name, argRef, t⟩])
    else
      parseArgsLoopTrace rest out b tr

def QueryBuilder.parseArgumentsTrace (b : QueryBuilder) (contents : String) :
    Option (String × QueryBuilder × List ResolutionRecord) :=
  match stringFormatterParse contents with
  | none => none
  | some formatParts =>
    match formatParts with
    | [p] =>
      if fieldTruthy p.field then parseArgsLoopTrace [p] "" b []
      else some (p.literal, b, [])
    | _ => parseArgsLoopTrace formatParts "" b []

/-- The example model used throughout the repository's tests: table `test`,
fields `a: int`, `b: Optional[str]`, `c: bool`. -/
def exampleModel : PyModel :=
  ⟨"test", [⟨"a", .int⟩, ⟨"b", .option .str⟩, ⟨"c", .bool⟩]⟩

def argNames (xs : List QueryArgument) : List String :=
  xs.map (fun a => a.name)

def NamesNodup (xs : List QueryArgument) : Prop :=
  (argNames xs).Nodup

def typeOfName (xs : List QueryArgument) (n : String) : Option PyType :=
  (xs.find? (fun a => a.name = n)).map (fun a => a.type)

def countName (xs : List QueryArgument) (n : String) : Nat :=
  (xs.filter (fun a => a.name = n)).length

def firstResolvedType (tr : List ResolutionRecord) (n : String) : Option PyType :=
  (tr.find? (fun e => e.name = n)).map (fun e => e.type)

/-- The follower of a printed number must not begin with another digit. -/
def goodFollow : List Char → Prop
  | [] => True
  | c :: _ => c.isDigit = false

mutual

def jsizeV : JsonVal → Nat
  | .arr xs => 1 + jsizeE xs
  | .obj ms => 1 + jsizeM ms
  | _ => 1
termination_by v => sizeOf v

def jsizeE : List JsonVal → Nat
  | [] => 0
  | x :: xs => 1 + jsizeV x + jsizeE xs
termination_by xs => sizeOf xs

def jsizeM : List (String × JsonVal) → Nat
  | [] => 0
  | (_, v) :: ms => 1 + jsizeV v + jsizeM ms
termination_by ms => sizeOf ms

end

/-! ## Claims -/

/-- C3: for the example model (`a: int`, `b: Optional[str]`, `c: bool`, table
`test`), the chain `update("b","a","c").where("a = {.a}")` produces exactly
`UPDATE test SET b = $1, a = $2, c = $3 WHERE a = $2`: each positional field
of `update` appends one argument typed from the model, and the WHERE
reference `{.a}` reuses the existing placeholder index 2 instead of adding a
new argument. -/
theorem update_where_reuses_placeholder :
    ((Query.update exampleModel ["b", "a", "c"] []).bind
        (fun b => whereMixinFn b "a = \x7b.a\x7d")).map
      (fun b => (b.sql, b.args)) =
    some ("UPDATE test SET b = $1, a = $2, c = $3 WHERE a = $2",
      [⟨"b", .option .str⟩, ⟨"a", .int⟩, ⟨"c", .bool⟩]) := by
  decide

/-- C6: for the example model, `dynamic_update().where("a = {.a}")` builds the
SQL template `UPDATE test SET {dynamic} WHERE a = $1`, and the call-time
extra keys `b, c, d, e` (none of them bound as fixed arguments) are assigned
the next sequential placeholder indices `$2..$5` after the fixed `a = $1`. -/
theorem dynamic_update_assigns_sequential_indices :
    (whereMixinFn (Query.dynamicUpdate exampleModel) "a = \x7b.a\x7d").map
      (fun b => (b.sql, b.args, dynamicAssignments b ["b", "c", "d", "e"])) =
    some ("UPDATE test SET \x7bdynamic\x7d WHERE a = $1",
      [⟨"a", PyType.int⟩],
      [("b", 2), ("c", 3), ("d", 4), ("e", 5)]) := by
  decide

/-- C5: `fetch_one`/`fetch_all` on a builder whose returns-data flag is false
raise a `ValueError` immediately, without constructing an execution method
(and hence before any I/O, which would require a connection); on a builder
whose flag is true they return the execution method without raising. -/
theorem fetch_requires_returns_data (b : QueryBuilder) :
    (b.returnsData = false →
      b.fetch_one = .error "cannot call fetch_one on a query that does not return data" ∧
      b.fetch_all = .error "cannot call fetch_one on a query that does not return data") ∧
    (b.returnsData = true →
      b.fetch_one = .ok (Method.ofQuery b) ∧
      b.fetch_all = .ok (Method.ofQuery b)) := by
  constructor
  · intro h
    simp [QueryBuilder.fetch_one, QueryBuilder.fetch_all, h]
  · intro h
    simp [QueryBuilder.fetch_one, QueryBuilder.fetch_all, h]

/-- Witness for C5: the delete builder does not return data and both fetch
terminals raise; the select builder returns data and neither raises. -/
theorem fetch_requires_returns_data_witness :
    ((Query.delete exampleModel).fetch_one =
      .error "cannot call fetch_one on a query that does not return data" ∧
     (Query.delete exampleModel).fetch_all =
      .error "cannot call fetch_one on a query that does not return data") ∧
    ((Query.select exampleModel none none).fetch_one =
      .ok (Method.ofQuery (Query.select exampleModel none none)) ∧
     (Query.select exampleModel none none).fetch_all =
      .ok (Method.ofQuery (Query.select exampleModel none none))) :=
  ⟨(fetch_requires_returns_data (Query.delete exampleModel)).1 rfl,
   (fetch_requires_returns_data (Query.select exampleModel none none)).2 rfl⟩

/-- C10: `execute()` and `prepare()` perform no returns-data precondition
check: they succeed on every builder, row-returning or not, in contrast with
`fetch_one`/`fetch_all`, which succeed exactly when the flag is set. -/
theorem execute_prepare_no_returns_data_check (b : QueryBuilder) :
    b.execute = .ok (Method.ofQuery b) ∧
    b.prepare = .ok (Method.ofQuery b) ∧
    (b.fetch_one.isOk = b.returnsData) ∧
    (b.fetch_all.isOk = b.returnsData) := by
  refine ⟨rfl, rfl, ?_, ?_⟩ <;>
    cases h : b.returnsData <;>
      simp [QueryBuilder.fetch_one, QueryBuilder.fetch_all, h, Except.isOk, Except.toBool]

/-! ## Lemmas about argument lookup and registration -/

theorem findIndexByName_append_left {xs : List QueryArgument} {n : String}
    {i : Nat} (ys : List QueryArgument) (h : findIndexByName xs n = some i) :
    findIndexByName (xs ++ ys) n = some i := by
  induction xs generalizing i with
  | nil => simp [findIndexByName] at h
  | cons a rest ih =>
    rw [List.cons_append]
    by_cases ha : a.name = n
    · simp only [findIndexByName, ha, if_true] at h ⊢
      exact h
    · simp only [findIndexByName, ha, if_false] at h ⊢
      cases hr : findIndexByName rest n with
      | none => rw [hr] at h; simp at h
      | some j =>
        rw [hr] at h
        simp at h
        rw [ih hr]
        simp [h]

theorem findIndexByName_eq_none_iff {xs : List QueryArgument} {n : String} :
    findIndexByName xs n = none ↔ ∀ a ∈ xs, a.name ≠ n := by
  induction xs with
  | nil => simp [findIndexByName]
  | cons a rest ih =>
    simp only [findIndexByName, List.mem_cons]
    by_cases ha : a.name = n
    · simp [ha]
    · simp [ha, ih]

theorem findIndexByName_append_singleton {xs : List QueryArgument} {n : String}
    (t : PyType) (h : findIndexByName xs n = none) :
    findIndexByName (xs ++ [⟨n, t⟩]) n = some xs.length := by
  induction xs with
  | nil => simp [findIndexByName]
  | cons a rest ih =>
    simp only [findIndexByName] at h
    by_cases ha : a.name = n
    · simp [ha] at h
    · simp only [ha, if_false] at h
      cases hr : findIndexByName rest n with
      | some j => rw [hr] at h; simp at h
      | none =>
        rw [List.cons_append]
        simp only [findIndexByName, ha, if_false]
        rw [ih hr]
        simp

theorem withArg_found {b : QueryBuilder} {n : String} {i : Nat} (t : PyType)
    (h : findIndexByName b.args n = some i) :
    b.withArg n t = (dollarRef (i + 1), b) := by
  simp [QueryBuilder.withArg, h]

theorem withArg_new {b : QueryBuilder} {n : String} (t : PyType)
    (h : findIndexByName b.args n = none) :
    b.withArg n t =
      (dollarRef (b.args.length + 1), { b with args := b.args ++ [⟨n, t⟩] }) := by
  simp [QueryBuilder.withArg, h]

theorem withArg_args_extends (b : QueryBuilder) (n : String) (t : PyType) :
    ∃ s, ((b.withArg n t).2).args = b.args ++ s := by
  cases h : findIndexByName b.args n with
  | none => exact ⟨[⟨n, t⟩], by rw [withArg_new t h]⟩
  | some i => exact ⟨[], by rw [withArg_found t h]; simp⟩

theorem withSql_args (b : QueryBuilder) (c : String) :
    (b.withSql c).args = b.args := rfl

theorem parseArgsLoop_args_extends :
    ∀ (parts : List FormatPart) (out : String) (b : QueryBuilder)
      (o : String) (b' : QueryBuilder),
      parseArgsLoop parts out b = some (o, b') → ∃ s, b'.args = b.args ++ s := by
  intro parts
  induction parts with
  | nil =>
    intro out b o b' h
    simp only [parseArgsLoop, Option.some.injEq, Prod.mk.injEq] at h
    exact ⟨[], by rw [← h.2]; simp⟩
  | cons p rest ih =>
    intro out b o b' h
    simp only [parseArgsLoop] at h
    by_cases hf : fieldTruthy p.field
    · rw [if_pos hf] at h
      cases hr : resolveFieldType b.model (p.field.getD "") p.spec with
      | none => rw [hr] at h; cases h
      | some nt =>
        rw [hr] at h
        obtain ⟨s1, hs1⟩ := withArg_args_extends b nt.1 nt.2
        obtain ⟨s2, hs2⟩ := ih _ _ _ _ h
        exact ⟨s1 ++ s2, by rw [hs2, hs1, List.append_assoc]⟩
    · rw [if_neg hf] at h
      exact ih _ _ _ _ h

theorem parseArguments_args_extends {b : QueryBuilder} {contents o : String}
    {b' : QueryBuilder} (h : b.parseArguments contents = some (o, b')) :
    ∃ s, b'.args = b.args ++ s := by
  cases hp : stringFormatterParse contents with
  | none =>
    simp only [QueryBuilder.parseArguments, hp] at h
    exact Option.noConfusion h
  | some parts =>
    simp only [QueryBuilder.parseArguments, hp] at h
    rcases parts with _ | ⟨p, _ | ⟨q, rest⟩⟩
    · exact parseArgsLoop_args_extends _ _ _ _ _ h
    · by_cases hf : fieldTruthy p.field
      · simp only [hf, if_true] at h
        exact parseArgsLoop_args_extends _ _ _ _ _ h
      · simp only [hf, Bool.false_eq_true, if_false] at h
        simp only [Option.some.injEq, Prod.mk.injEq] at h
        exact ⟨[], by rw [← h.2]; simp⟩
    · exact parseArgsLoop_args_extends _ _ _ _ _ h

theorem step_args_extends {b b' : QueryBuilder} (h : BuilderStep b b') :
    ∃ s, b'.args = b.args ++ s := by
  obtain ⟨t, ht⟩ := h
  cases t with
  | whereT q =>
    simp only [Transformation.apply, whereMixinFn] at ht
    cases hp : b.parseArguments q with
    | none => simp only [hp] at ht; exact Option.noConfusion ht
    | some ob =>
      obtain ⟨o1, b1⟩ := ob
      simp only [hp, Option.some.injEq] at ht
      obtain ⟨s, hs⟩ := parseArguments_args_extends hp
      exact ⟨s, by rw [← ht, withSql_args, hs]⟩
  | joinT tm o a d =>
    simp only [Transformation.apply, QueryBuilder.join] at ht
    cases hp : b.parseArguments o with
    | none => simp only [hp] at ht; exact Option.noConfusion ht
    | some ob =>
      obtain ⟨o1, b1⟩ := ob
      simp only [hp, Option.some.injEq] at ht
      obtain ⟨s, hs⟩ := parseArguments_args_extends hp
      exact ⟨s, by rw [← ht, withSql_args, hs]⟩
  | groupByT tgt =>
    simp only [Transformation.apply, QueryBuilder.groupBy] at ht
    cases hp : b.parseArguments tgt with
    | none => simp only [hp] at ht; exact Option.noConfusion ht
    | some ob =>
      obtain ⟨o1, b1⟩ := ob
      simp only [hp, Option.some.injEq] at ht
      obtain ⟨s, hs⟩ := parseArguments_args_extends hp
      exact ⟨s, by rw [← ht, withSql_args, hs]⟩
  | orderByT tgt dir =>
    simp only [Transformation.apply, QueryBuilder.orderBy] at ht
    cases hp : b.parseArguments tgt with
    | none => simp only [hp] at ht; exact Option.noConfusion ht
    | some ob =>
      obtain ⟨o1, b1⟩ := ob
      simp only [hp] at ht
      cases hp2 : b1.parseArguments dir with
      | none => simp only [hp2] at ht; exact Option.noConfusion ht
      | some ob2 =>
        obtain ⟨o2, b2⟩ := ob2
        simp only [hp2, Option.some.injEq] at ht
        obtain ⟨s1, hs1⟩ := parseArguments_args_extends hp
        obtain ⟨s2, hs2⟩ := parseArguments_args_extends hp2
        exact ⟨s1 ++ s2, by
          rw [← ht, withSql_args, hs2, hs1, List.append_assoc]⟩
  | limitT a =>
    cases a with
    | int n =>
      simp only [Transformation.apply, QueryBuilder.limit, Option.some.injEq] at ht
      exact ⟨[], by rw [← ht, withSql_args]; simp⟩
    | str s =>
      simp only [Transformation.apply, QueryBuilder.limit] at ht
      cases hp : b.parseArguments s with
      | none => simp only [hp] at ht; exact Option.noConfusion ht
      | some ob =>
        obtain ⟨o1, b1⟩ := ob
        simp only [hp, Option.some.injEq] at ht
        obtain ⟨sf, hs⟩ := parseArguments_args_extends hp
        exact ⟨sf, by rw [← ht, withSql_args, hs]⟩
  | offsetT a =>
    cases a with
    | int n =>
      simp only [Transformation.apply, QueryBuilder.offset, Option.some.injEq] at ht
      exact ⟨[], by rw [← ht, withSql_args]; simp⟩
    | str s =>
      simp only [Transformation.apply, QueryBuilder.offset] at ht
      cases hp : b.parseArguments s with
      | none => simp only [hp] at ht; exact Option.noConfusion ht
      | some ob =>
        obtain ⟨o1, b1⟩ := ob
        simp only [hp, Option.some.injEq] at ht
        obtain ⟨sf, hs⟩ := parseArguments_args_extends hp
        exact ⟨sf, by rw [← ht, withSql_args, hs]⟩
  | onConflictT c a =>
    simp only [Transformation.apply, QueryBuilder.onConflict] at ht
    cases hp : b.parseArguments a with
    | none => simp only [hp] at ht; exact Option.noConfusion ht
    | some ob =>
      obtain ⟨o1, b1⟩ := ob
      simp only [hp, Option.some.injEq] at ht
      obtain ⟨s, hs⟩ := parseArguments_args_extends hp
      exact ⟨s, by rw [← ht, withSql_args, hs]⟩
  | returningT =>
    simp only [Transformation.apply, Option.some.injEq] at ht
    exact ⟨[], by
      rw [← ht]
      simp [returningMixinFn, QueryBuilder.withReturnsData, withSql_args]⟩
  | rawT s =>
    simp only [Transformation.apply, QueryBuilder.raw] at ht
    cases hp : b.parseArguments s with
    | none => simp only [hp] at ht; exact Option.noConfusion ht
    | some ob =>
      obtain ⟨o1, b1⟩ := ob
      simp only [hp, Option.some.injEq] at ht
      obtain ⟨sf, hs⟩ := parseArguments_args_extends hp
      exact ⟨sf, by rw [← ht, withSql_args, hs]⟩

theorem chain_args_extends {b b' : QueryBuilder} (h : BuilderChain b b') :
    ∃ s, b'.args = b.args ++ s := by
  induction h with
  | refl => exact ⟨[], by simp⟩
  | tail _ hstep ih =>
    obtain ⟨s1, hs1⟩ := ih
    obtain ⟨s2, hs2⟩ := step_args_extends hstep
    exact ⟨s1 ++ s2, by rw [hs2, hs1, List.append_assoc]⟩

/-- C2: across any chain of builder transformations the argument list only
ever grows at the end, so the position of every argument is stable: an
argument visible in the ancestor keeps its index in every descendant, a name
already registered at index `i` always resolves to placeholder `$(i+1)` in
every descendant and registers nothing new, and a fresh name is bound to
`$(len+1)`, its 1-based insertion position. -/
theorem positional_stability (b b' : QueryBuilder) (h : BuilderChain b b') :
    (∃ s, b'.args = b.args ++ s) ∧
    (∀ i a, b.args.get? i = some a → b'.args.get? i = some a) ∧
    (∀ n t i, findIndexByName b.args n = some i →
      b'.withArg n t = (dollarRef (i + 1), b')) ∧
    (∀ n t, findIndexByName b'.args n = none →
      (b'.withArg n t).1 = dollarRef (b'.args.length + 1) ∧
      ((b'.withArg n t).2).args = b'.args ++ [⟨n, t⟩]) := by
  obtain ⟨s, hs⟩ := chain_args_extends h
  refine ⟨⟨s, hs⟩, ?_, ?_, ?_⟩
  · intro i a hget
    rw [hs]
    rw [List.get?_append]
    · exact hget
    · exact List.get?_eq_some.mp hget |>.1
  · intro n t i hfind
    have : findIndexByName b'.args n = some i := by
      rw [hs]; exact findIndexByName_append_left s hfind
    exact withArg_found t this
  · intro n t hnone
    rw [withArg_new t hnone]
    exact ⟨rfl, rfl⟩

/-- Witness for C2: chaining `where("a = {.a}")` onto
`update("b","a","c")` leaves the three update arguments in place, resolves
`a` to its original `$2`, and binds a fresh name at `$4`. -/
theorem positional_stability_witness :
    ((QueryBuilder.mk exampleModel
        "UPDATE test SET b = $1, a = $2, c = $3 WHERE a = $2"
        [⟨"b", .option .str⟩, ⟨"a", .int⟩, ⟨"c", .bool⟩] false).args =
      (QueryBuilder.mk exampleModel "UPDATE test SET b = $1, a = $2, c = $3"
        [⟨"b", .option .str⟩, ⟨"a", .int⟩, ⟨"c", .bool⟩] false).args ++ []) ∧
    ((QueryBuilder.mk exampleModel
        "UPDATE test SET b = $1, a = $2, c = $3 WHERE a = $2"
        [⟨"b", .option .str⟩, ⟨"a", .int⟩, ⟨"c", .bool⟩] false).withArg
        "a" .any =
      (dollarRef 2,
       QueryBuilder.mk exampleModel
        "UPDATE test SET b = $1, a = $2, c = $3 WHERE a = $2"
        [⟨"b", .option .str⟩, ⟨"a", .int⟩, ⟨"c", .bool⟩] false)) := by
  have hchain : BuilderChain
      (QueryBuilder.mk exampleModel "UPDATE test SET b = $1, a = $2, c = $3"
        [⟨"b", .option .str⟩, ⟨"a", .int⟩, ⟨"c", .bool⟩] false)
      (QueryBuilder.mk exampleModel
        "UPDATE test SET b = $1, a = $2, c = $3 WHERE a = $2"
        [⟨"b", .option .str⟩, ⟨"a", .int⟩, ⟨"c", .bool⟩] false) :=
    Relation.ReflTransGen.single ⟨Transformation.whereT "a = \x7b.a\x7d", by decide⟩
  have main := positional_stability _ _ hchain
  refine ⟨?_, main.2.2.1 "a" .any 1 (by decide)⟩
  have := main.1
  simp

/-- C4: every transformation, applied at the builder-object level, allocates
a fresh object and leaves every pre-existing object in the store -- in
particular the original builder and any sibling derived from a shared
ancestor -- completely unchanged. -/
theorem transformation_frame (t : Transformation) (store : List QueryBuilder)
    (r r' : Nat) (store' : List QueryBuilder)
    (h : t.applyRef store r = some (r', store')) :
    (∀ i, i < store.length → store'.get? i = store.get? i) ∧
    store'.get? r = store.get? r ∧
    r < store.length ∧
    r' = store.length := by
  unfold Transformation.applyRef at h
  cases hg : store.get? r with
  | none => simp only [hg] at h; exact Option.noConfusion h
  | some b =>
    simp only [hg] at h
    cases ha : t.apply b with
    | none => simp only [ha] at h; exact Option.noConfusion h
    | some b' =>
      simp only [ha, Option.some.injEq, Prod.mk.injEq] at h
      obtain ⟨hr', hst⟩ := h
      have hrlen : r < store.length := by
        cases hlt : Nat.decLt r store.length with
        | isTrue p => exact p
        | isFalse p =>
          exfalso
          rw [List.get?_eq_none.mpr (Nat.le_of_not_lt p)] at hg
          cases hg
      constructor
      · intro i hi
        rw [← hst, List.get?_append hi]
      · constructor
        · rw [← hst, List.get?_append hrlen]
          exact hg
        · exact ⟨hrlen, hr'.symm⟩

/-- Witness for C4: applying `where("a = {.a}")` to the select builder stored
at reference 0 allocates the result at reference 1 and leaves object 0
unchanged. -/
theorem transformation_frame_witness :
    ((Transformation.whereT "a = \x7b.a\x7d").applyRef
        [Query.select exampleModel none none] 0).isSome = true ∧
    (∀ st', (Transformation.whereT "a = \x7b.a\x7d").applyRef
        [Query.select exampleModel none none] 0 = some (1, st') →
      st'.get? 0 = some (Query.select exampleModel none none)) := by
  constructor
  · decide
  · intro st' h
    have main := transformation_frame _ _ _ _ _ h
    rw [main.2.1]
    decide

/-- C7: every execution strategy first validates the call-time keyword values
against the schema built from the argument registry; a validation failure
surfaces as the structured validation error with an empty connection trace
(the connection is never invoked), while on success the SQL and the processed
positional values are handed to the connection in a single call. -/
theorem validation_before_connection (m : MethodData) (conn : Conn)
    (kw : List (String × JsonVal)) :
    (∀ errs, validateFields m.argumentModel kw = .error errs →
      ExecuteMethod.call m conn kw = (.error (.validation errs), []) ∧
      PrepareMethod.call m conn kw = (.error (.validation errs), []) ∧
      FetchOneMethod.call m conn kw = (.error (.validation errs), []) ∧
      FetchAllMethod.rows m conn kw = (.error (.validation errs), []) ∧
      FetchAllMethod.call m conn kw = (.error (.validation errs), []) ∧
      FetchAllMethod.tuples m conn kw = (.error (.validation errs), []) ∧
      FetchAllMethod.cursor m conn kw = (.error (.validation errs), [])) ∧
    (∀ args, processArguments m kw = .ok args →
      (ExecuteMethod.call m conn kw).2 = [.execute m.sql args] ∧
      (PrepareMethod.call m conn kw).2 = [.prepare m.sql args] ∧
      (FetchOneMethod.call m conn kw).2 = [.fetchrow m.sql args] ∧
      (FetchAllMethod.rows m conn kw).2 = [.fetch m.sql args] ∧
      (FetchAllMethod.call m conn kw).2 = [.fetch m.sql args] ∧
      (FetchAllMethod.tuples m conn kw).2 = [.fetch m.sql args] ∧
      (FetchAllMethod.cursor m conn kw).2 = [.cursor m.sql args]) := by
  constructor
  · intro errs herr
    have hpa : processArguments m kw = .error (.validation errs) := by
      simp [processArguments, herr]
    refine ⟨?_, ?_, ?_, ?_, ?_, ?_, ?_⟩ <;>
      simp [ExecuteMethod.call, PrepareMethod.call, FetchOneMethod.call,
        FetchAllMethod.rows, FetchAllMethod.call, FetchAllMethod.tuples,
        FetchAllMethod.cursor, hpa]
  · intro args hok
    have hrows : FetchAllMethod.rows m conn kw =
        (.ok conn.fetchResult, [.fetch m.sql args]) := by
      simp [FetchAllMethod.rows, hok]
    refine ⟨?_, ?_, ?_, ?_, ?_, ?_, ?_⟩
    · simp [ExecuteMethod.call, hok]
    · simp [PrepareMethod.call, hok]
    · simp only [FetchOneMethod.call, hok]
      cases conn.fetchrowResult with
      | none => rfl
      | some row => cases hd : modelValidate m.query.model row <;> simp [hd]
    · simp [hrows]
    · simp only [FetchAllMethod.call, hrows]
      cases hd : decodeRows m.query.model conn.fetchResult <;> simp [hd]
    · simp [FetchAllMethod.tuples, hrows]
    · simp only [FetchAllMethod.cursor, hok]
      cases hd : decodeRows m.query.model conn.cursorResult <;> simp [hd]

/-- Witness for C7: for a method with one required `int` argument, supplying a
non-coercible string makes every strategy return the structured validation
error without touching the connection, and supplying a valid value routes the
SQL and processed values to the connection. -/
theorem validation_before_connection_witness :
    (ExecuteMethod.call
        (Method.ofQuery ⟨exampleModel, "DELETE FROM test WHERE a = $1",
          [⟨"a", PyType.int⟩], false⟩)
        ⟨none, [], []⟩ [("a", .str "fuck")] =
      (.error (.validation [("a", "value is not a valid integer")]), [])) ∧
    ((ExecuteMethod.call
        (Method.ofQuery ⟨exampleModel, "DELETE FROM test WHERE a = $1",
          [⟨"a", PyType.int⟩], false⟩)
        ⟨none, [], []⟩ [("a", .num 7)]).2 =
      [.execute "DELETE FROM test WHERE a = $1" [.num 7]]) := by
  constructor
  · exact ((validation_before_connection _ _ _).1
      [("a", "value is not a valid integer")] (by rfl)).1
  · exact ((validation_before_connection _ _ _).2 [.num 7] (by rfl)).1

/-- C8: once the arguments validate, `fetch_one` raises `ModelNotFound` when
the connection returns no row; a returned row is decoded into a model
instance, and a row that fails decoding raises the structured validation
error -- which is a different constructor from `ModelNotFound` -- rather
than not-found. -/
theorem fetch_one_not_found_vs_validation (m : MethodData) (conn : Conn)
    (kw : List (String × JsonVal)) (args : List JsonVal)
    (hok : processArguments m kw = .ok args) :
    (conn.fetchrowResult = none →
      FetchOneMethod.call m conn kw =
        (.error .notFound, [.fetchrow m.sql args])) ∧
    (∀ row inst, conn.fetchrowResult = some row →
      modelValidate m.query.model row = .ok inst →
      FetchOneMethod.call m conn kw = (.ok inst, [.fetchrow m.sql args])) ∧
    (∀ row errs, conn.fetchrowResult = some row →
      modelValidate m.query.model row = .error errs →
      FetchOneMethod.call m conn kw =
        (.error (.validation errs), [.fetchrow m.sql args])) ∧
    (∀ errs, PyError.notFound ≠ PyError.validation errs) := by
  refine ⟨?_, ?_, ?_, ?_⟩
  · intro hrow
    simp [FetchOneMethod.call, hok, hrow]
  · intro row inst hrow hdec
    simp [FetchOneMethod.call, hok, hrow, hdec]
  · intro row errs hrow hdec
    simp [FetchOneMethod.call, hok, hrow, hdec]
  · intro errs h
    cases h

/-- Witness for C8: with the example model and a valid argument, an absent
row raises not-found; a well-formed row decodes; a row with a malformed
`a` raises the validation error. -/
theorem fetch_one_not_found_vs_validation_witness :
    (FetchOneMethod.call
        (Method.ofQuery ⟨exampleModel, "SELECT a, b, c FROM test WHERE a = $1",
          [⟨"a", PyType.int⟩], true⟩)
        ⟨none, [], []⟩ [("a", .num 1)] =
      (.error .notFound,
       [.fetchrow "SELECT a, b, c FROM test WHERE a = $1" [.num 1]])) ∧
    (FetchOneMethod.call
        (Method.ofQuery ⟨exampleModel, "SELECT a, b, c FROM test WHERE a = $1",
          [⟨"a", PyType.int⟩], true⟩)
        ⟨some [("a", .num 1), ("b", .null), ("c", .bool true)], [], []⟩
        [("a", .num 1)] =
      (.ok [("a", .num 1), ("b", .null), ("c", .bool true)],
       [.fetchrow "SELECT a, b, c FROM test WHERE a = $1" [.num 1]])) ∧
    (FetchOneMethod.call
        (Method.ofQuery ⟨exampleModel, "SELECT a, b, c FROM test WHERE a = $1",
          [⟨"a", PyType.int⟩], true⟩)
        ⟨some [("a", .str "zzz"), ("b", .null), ("c", .bool true)], [], []⟩
        [("a", .num 1)] =
      (.error (.validation [("a", "value is not a valid integer")]),
       [.fetchrow "SELECT a, b, c FROM test WHERE a = $1" [.num 1]])) := by
  refine ⟨?_, ?_, ?_⟩
  · exact (fetch_one_not_found_vs_validation _ _ _ [.num 1] (by rfl)).1 rfl
  · exact (fetch_one_not_found_vs_validation _ _ _ [.num 1] (by rfl)).2.1
      [("a", .num 1), ("b", .null), ("c", .bool true)]
      [("a", .num 1), ("b", .null), ("c", .bool true)] rfl (by rfl)
  · exact (fetch_one_not_found_vs_validation _ _ _ [.num 1] (by rfl)).2.2.1
      [("a", .str "zzz"), ("b", .null), ("c", .bool true)]
      [("a", "value is not a valid integer")] rfl (by rfl)

/-! ## Name uniqueness and declared types in the argument registry -/

theorem findIndexByName_none_iff_not_mem {xs : List QueryArgument} {n : String} :
    findIndexByName xs n = none ↔ n ∉ argNames xs := by
  rw [findIndexByName_eq_none_iff]
  simp [argNames]

theorem findIndexByName_some_mem {xs : List QueryArgument} {n : String} {i : Nat}
    (h : findIndexByName xs n = some i) : n ∈ argNames xs := by
  by_contra hmem
  rw [← findIndexByName_none_iff_not_mem] at hmem
  rw [hmem] at h
  cases h

theorem typeOfName_none_iff {xs : List QueryArgument} {n : String} :
    typeOfName xs n = none ↔ findIndexByName xs n = none := by
  induction xs with
  | nil => simp [typeOfName, findIndexByName]
  | cons a rest ih =>
    by_cases ha : a.name = n
    · simp [typeOfName, findIndexByName, List.find?_cons, ha]
    · have h1 : typeOfName (a :: rest) n = typeOfName rest n := by
        simp [typeOfName, List.find?_cons, ha]
      have h2 : findIndexByName (a :: rest) n =
          (findIndexByName rest n).map (fun i => i + 1) := by
        simp [findIndexByName, ha]
      rw [h1, h2, ih]
      cases findIndexByName rest n <;> simp

theorem typeOfName_append_left {xs : List QueryArgument} {n : String}
    {t : PyType} (ys : List QueryArgument) (h : typeOfName xs n = some t) :
    typeOfName (xs ++ ys) n = some t := by
  unfold typeOfName at h ⊢
  cases hf : xs.find? (fun a => a.name = n) with
  | none => rw [hf] at h; cases h
  | some a =>
    rw [hf] at h
    rw [List.find?_append, hf]
    exact h

theorem typeOfName_append_singleton_self {xs : List QueryArgument} {n : String}
    (t : PyType) (h : typeOfName xs n = none) :
    typeOfName (xs ++ [⟨n, t⟩]) n = some t := by
  unfold typeOfName at h ⊢
  cases hf : xs.find? (fun a => a.name = n) with
  | some a => rw [hf] at h; cases h
  | none =>
    rw [List.find?_append, hf]
    simp [List.find?_cons]

theorem typeOfName_append_singleton_ne {xs : List QueryArgument} {n m : String}
    (t : PyType) (hne : m ≠ n) :
    typeOfName (xs ++ [⟨m, t⟩]) n = typeOfName xs n := by
  unfold typeOfName
  rw [List.find?_append]
  cases hf : xs.find? (fun a => a.name = n) with
  | some a => rfl
  | none => simp [List.find?_cons, hne]

theorem namesNodup_append_singleton {xs : List QueryArgument} {n : String}
    (t : PyType) (hnd : NamesNodup xs) (h : findIndexByName xs n = none) :
    NamesNodup (xs ++ [⟨n, t⟩]) := by
  have hmem : n ∉ argNames xs := findIndexByName_none_iff_not_mem.mp h
  unfold NamesNodup argNames at hnd ⊢
  rw [List.map_append]
  simp only [List.map_cons, List.map_nil]
  rw [List.nodup_append]
  refine ⟨hnd, List.nodup_singleton n, ?_⟩
  intro x hx hx2
  simp only [List.mem_singleton] at hx2
  subst hx2
  exact hmem hx

theorem countName_eq_zero {xs : List QueryArgument} {n : String}
    (h : n ∉ argNames xs) : countName xs n = 0 := by
  unfold countName
  rw [List.length_eq_zero, List.filter_eq_nil]
  intro a ha
  simp only [decide_eq_true_eq]
  intro hn
  exact h (hn ▸ List.mem_map_of_mem (fun a => a.name) ha)

theorem countName_eq_one {xs : List QueryArgument} {n : String}
    (hnd : NamesNodup xs) (hmem : n ∈ argNames xs) : countName xs n = 1 := by
  induction xs with
  | nil => simp [argNames] at hmem
  | cons a rest ih =>
    have hnd' : NamesNodup rest := (List.nodup_cons.mp hnd).2
    by_cases ha : a.name = n
    · have hnot : n ∉ argNames rest := by
        have := (List.nodup_cons.mp hnd).1
        rw [← ha]
        simpa [argNames] using this
      unfold countName
      rw [List.filter_cons]
      simp only [ha, decide_eq_true_eq, if_pos]
      have hz : countName rest n = 0 := countName_eq_zero hnot
      unfold countName at hz
      simp [hz]
    · have hmem' : n ∈ argNames rest := by
        simp only [argNames, List.map_cons, List.mem_cons] at hmem
        rcases hmem with h | h
        · exact absurd h.symm ha
        · exact h
      have step : countName (a :: rest) n = countName rest n := by
        unfold countName
        rw [List.filter_cons]
        simp [ha]
      rw [step]
      exact ih hnd' hmem'

theorem parseArgsLoopTrace_shift :
    ∀ (parts : List FormatPart) (out : String) (b : QueryBuilder)
      (tr : List ResolutionRecord),
      parseArgsLoopTrace parts out b tr =
        (parseArgsLoopTrace parts out b []).map
          (fun r => (r.1, r.2.1, tr ++ r.2.2)) := by
  intro parts
  induction parts with
  | nil => intro out b tr; simp [parseArgsLoopTrace]
  | cons p rest ih =>
    intro out b tr
    simp only [parseArgsLoopTrace]
    by_cases hf : fieldTruthy p.field
    · simp only [hf, if_true]
      cases hr : resolveFieldType b.model (p.field.getD "") p.spec with
      | none => simp
      | some nt =>
        obtain ⟨name, t⟩ := nt
        rcases hw : b.withArg name t with ⟨ref0, b0⟩
        simp only [hw, List.nil_append]
        have h1 := ih (out ++ p.literal ++ ref0) b0
          (tr ++ [(⟨name, ref0, t⟩ : ResolutionRecord)])
        have h2 := ih (out ++ p.literal ++ ref0) b0
          [(⟨name, ref0, t⟩ : ResolutionRecord)]
        rw [h1, h2]
        cases parseArgsLoopTrace rest (out ++ p.literal ++ ref0) b0 [] with
        | none => simp
        | some r => simp
    · simp only [hf, Bool.false_eq_true, if_false]
      exact ih _ _ tr

theorem parseArgsLoopTrace_agrees :
    ∀ (parts : List FormatPart) (out : String) (b : QueryBuilder)
      (tr : List ResolutionRecord),
      (parseArgsLoopTrace parts out b tr).map (fun r => (r.1, r.2.1)) =
        parseArgsLoop parts out b := by
  intro parts
  induction parts with
  | nil => intro out b tr; simp [parseArgsLoopTrace, parseArgsLoop]
  | cons p rest ih =>
    intro out b tr
    simp only [parseArgsLoopTrace, parseArgsLoop]
    by_cases hf : fieldTruthy p.field
    · simp only [hf, if_true]
      cases hr : resolveFieldType b.model (p.field.getD "") p.spec with
      | none => simp
      | some nt =>
        obtain ⟨name, t⟩ := nt
        exact ih _ _ _
    · simp only [hf, Bool.false_eq_true, if_false]
      exact ih _ _ tr

theorem parseArgumentsTrace_agrees (b : QueryBuilder) (contents : String) :
    (b.parseArgumentsTrace contents).map (fun r => (r.1, r.2.1)) =
      b.parseArguments contents := by
  unfold QueryBuilder.parseArgumentsTrace QueryBuilder.parseArguments
  cases stringFormatterParse contents with
  | none => rfl
  | some parts =>
    rcases parts with _ | ⟨p, _ | ⟨q, rest⟩⟩
    · exact parseArgsLoopTrace_agrees _ _ _ _
    · by_cases hf : fieldTruthy p.field
      · simp only [hf, if_true]
        exact parseArgsLoopTrace_agrees _ _ _ _
      · simp only [hf, Bool.false_eq_true, if_false, Option.map_some]
        rfl
    · exact parseArgsLoopTrace_agrees _ _ _ _

theorem typeOfName_isSome_of_found {xs : List QueryArgument} {n : String}
    {i : Nat} (h : findIndexByName xs n = some i) :
    ∃ t, typeOfName xs n = some t := by
  cases ht : typeOfName xs n with
  | some t => exact ⟨t, rfl⟩
  | none =>
    rw [typeOfName_none_iff.mp ht] at h
    cases h

theorem parseTrace_invariant :
    ∀ (parts : List FormatPart) (out : String) (b : QueryBuilder)
      (o : String) (b' : QueryBuilder) (tr : List ResolutionRecord),
      parseArgsLoopTrace parts out b [] = some (o, b', tr) →
      NamesNodup b.args →
      NamesNodup b'.args ∧
      (∃ s, b'.args = b.args ++ s) ∧
      (∀ e ∈ tr, ∃ i, findIndexByName b'.args e.name = some i ∧
        e.ref = dollarRef (i + 1)) ∧
      (∀ n, typeOfName b'.args n =
        match typeOfName b.args n with
        | some t => some t
        | none => firstResolvedType tr n) := by
  intro parts
  induction parts with
  | nil =>
    intro out b o b' tr h hnd
    simp only [parseArgsLoopTrace, Option.some.injEq, Prod.mk.injEq] at h
    obtain ⟨-, hb, htr⟩ := h
    subst hb
    refine ⟨hnd, ⟨[], by simp⟩, ?_, ?_⟩
    · intro e he
      rw [← htr] at he
      cases he
    · intro n
      cases ht : typeOfName b.args n with
      | some t => rfl
      | none => simp [← htr, firstResolvedType]
  | cons p rest ih =>
    intro out b o b' tr h hnd
    simp only [parseArgsLoopTrace] at h
    by_cases hf : fieldTruthy p.field
    · rw [if_pos hf] at h
      cases hr : resolveFieldType b.model (p.field.getD "") p.spec with
      | none => rw [hr] at h; cases h
      | some nt =>
        obtain ⟨name, t⟩ := nt
        simp only [hr] at h
        cases hfind : findIndexByName b.args name with
        | some i =>
          rw [withArg_found t hfind] at h
          rw [parseArgsLoopTrace_shift] at h
          cases hrun : parseArgsLoopTrace rest (out ++ p.literal ++ dollarRef (i + 1)) b [] with
          | none => rw [hrun] at h; cases h
          | some r =>
            obtain ⟨o0, b0, tr0⟩ := r
            rw [hrun] at h
            simp only [Option.map_some', Option.some.injEq, Prod.mk.injEq,
              List.nil_append] at h
            obtain ⟨ho, hb, htr⟩ := h
            subst hb
            obtain ⟨hnd', ⟨s, hs⟩, hrefs, htypes⟩ := ih _ _ _ _ _ hrun hnd
            refine ⟨hnd', ⟨s, hs⟩, ?_, ?_⟩
            · intro e he
              rw [← htr] at he
              rcases List.mem_cons.mp he with he1 | he2
              · subst he1
                exact ⟨i, by rw [hs]; exact findIndexByName_append_left s hfind, rfl⟩
              · exact hrefs e he2
            · intro n
              rw [htypes n]
              by_cases hn : n = name
              · subst hn
                obtain ⟨t0, ht0⟩ := typeOfName_isSome_of_found hfind
                rw [ht0]
              · cases ht : typeOfName b.args n with
                | some t1 => rfl
                | none =>
                  rw [← htr, List.singleton_append]
                  simp [firstResolvedType, List.find?_cons,
                    show ¬(name = n) from fun hh => hn hh.symm]
        | none =>
          rw [withArg_new t hfind] at h
          rw [parseArgsLoopTrace_shift] at h
          have hnd1 : NamesNodup (b.args ++ [⟨name, t⟩]) :=
            namesNodup_append_singleton t hnd hfind
          cases hrun : parseArgsLoopTrace rest
            (out ++ p.literal ++ dollarRef (b.args.length + 1))
            { b with args := b.args ++ [⟨name, t⟩] } [] with
          | none => rw [hrun] at h; cases h
          | some r =>
            obtain ⟨o0, b0, tr0⟩ := r
            rw [hrun] at h
            simp only [Option.map_some', Option.some.injEq, Prod.mk.injEq,
              List.nil_append] at h
            obtain ⟨ho, hb, htr⟩ := h
            subst hb
            obtain ⟨hnd', ⟨s, hs⟩, hrefs, htypes⟩ := ih _ _ _ _ _ hrun hnd1
            simp only at hs
            refine ⟨hnd', ⟨⟨name, t⟩ :: s, by rw [hs, List.append_assoc]; rfl⟩,
              ?_, ?_⟩
            · intro e he
              rw [← htr] at he
              rcases List.mem_cons.mp he with he1 | he2
              · subst he1
                refine ⟨b.args.length, ?_, rfl⟩
                rw [hs]
                exact findIndexByName_append_left s
                  (findIndexByName_append_singleton t hfind)
              · exact hrefs e he2
            · intro n
              rw [htypes n]
              by_cases hn : n = name
              · subst hn
                have hb0 : typeOfName b.args n = none := typeOfName_none_iff.mpr hfind
                rw [hb0]
                have h1 : typeOfName (b.args ++ [⟨n, t⟩]) n = some t :=
                  typeOfName_append_singleton_self t hb0
                rw [h1, ← htr]
                simp [firstResolvedType, List.find?_cons]
              · have h1 : typeOfName (b.args ++ [⟨name, t⟩]) n = typeOfName b.args n :=
                  typeOfName_append_singleton_ne t (fun hh => hn hh.symm)
                rw [h1]
                cases ht : typeOfName b.args n with
                | some t1 => rfl
                | none =>
                  rw [← htr, List.singleton_append]
                  simp [firstResolvedType, List.find?_cons,
                    show ¬(name = n) from fun hh => hn hh.symm]
    · rw [if_neg hf] at h
      exact ih _ _ _ _ _ h hnd

/-- C1: when a template is parsed over a builder whose argument names are
unique (an invariant of every builder the library constructs), every
occurrence of the same resolved argument name yields the identical
placeholder text, the resulting argument list holds exactly one entry per
referenced name, re-resolving any referenced name later (as a later
transformation in the chain would through `_with_arg`) returns the same
placeholder and leaves the builder untouched, and the entry's declared type
is the type of the name's first occurrence -- a pre-existing entry's type is
never changed and a hint on a later occurrence is ignored.  The instrumented
parse records exactly the resolutions the source performs
(`parseArgumentsTrace_agrees`). -/
theorem argument_reuse_idempotent (b : QueryBuilder) (template : String)
    (o : String) (b' : QueryBuilder) (tr : List ResolutionRecord)
    (hnd : NamesNodup b.args)
    (h : b.parseArgumentsTrace template = some (o, b', tr)) :
    (∀ e1 ∈ tr, ∀ e2 ∈ tr, e1.name = e2.name → e1.ref = e2.ref) ∧
    (∀ e ∈ tr, countName b'.args e.name = 1) ∧
    (∀ e ∈ tr, ∀ t', b'.withArg e.name t' = (e.ref, b')) ∧
    (∀ n, typeOfName b'.args n =
      match typeOfName b.args n with
      | some t => some t
      | none => firstResolvedType tr n) ∧
    b.parseArguments template = some (o, b') := by
  have hagree : b.parseArguments template = some (o, b') := by
    rw [← parseArgumentsTrace_agrees, h]
    rfl
  have hmain : NamesNodup b'.args ∧
      (∃ s, b'.args = b.args ++ s) ∧
      (∀ e ∈ tr, ∃ i, findIndexByName b'.args e.name = some i ∧
        e.ref = dollarRef (i + 1)) ∧
      (∀ n, typeOfName b'.args n =
        match typeOfName b.args n with
        | some t => some t
        | none => firstResolvedType tr n) := by
    cases hp : stringFormatterParse template with
    | none =>
      simp only [QueryBuilder.parseArgumentsTrace, hp] at h
      exact Option.noConfusion h
    | some parts =>
      simp only [QueryBuilder.parseArgumentsTrace, hp] at h
      rcases parts with _ | ⟨p, _ | ⟨q, rest⟩⟩
      · exact parseTrace_invariant _ _ _ _ _ _ h hnd
      · by_cases hf : fieldTruthy p.field
        · simp only [hf, if_true] at h
          exact parseTrace_invariant _ _ _ _ _ _ h hnd
        · simp only [hf, Bool.false_eq_true, if_false] at h
          simp only [Option.some.injEq, Prod.mk.injEq] at h
          obtain ⟨-, hb, htr⟩ := h
          subst hb
          refine ⟨hnd, ⟨[], by simp⟩, ?_, ?_⟩
          · intro e he
            rw [← htr] at he
            cases he
          · intro n
            cases ht : typeOfName b.args n with
            | some t => rfl
            | none => simp [← htr, firstResolvedType]
      · exact parseTrace_invariant _ _ _ _ _ _ h hnd
  obtain ⟨hnd', ⟨s, hs⟩, hrefs, htypes⟩ := hmain
  refine ⟨?_, ?_, ?_, htypes, hagree⟩
  · intro e1 he1 e2 he2 hname
    obtain ⟨i1, hf1, hr1⟩ := hrefs e1 he1
    obtain ⟨i2, hf2, hr2⟩ := hrefs e2 he2
    rw [hname] at hf1
    rw [hf1] at hf2
    cases hf2
    rw [hr1, hr2]
  · intro e he
    obtain ⟨i, hf, -⟩ := hrefs e he
    exact countName_eq_one hnd' (findIndexByName_some_mem hf)
  · intro e he t'
    obtain ⟨i, hf, hr⟩ := hrefs e he
    rw [withArg_found t' hf, hr]

/-- Witness for C1: parsing `"a = {.a} AND x = {x} AND y = {.a} AND z = {x: str}"`
over the select builder resolves both `x` occurrences to `$2`, keeps exactly
one `x` entry, re-resolves `x` to `$2` without change, and keeps the first
occurrence's declared type `Any` even though the later occurrence carried a
`str` hint. -/
theorem argument_reuse_idempotent_witness :
    countName [⟨"a", PyType.int⟩, ⟨"x", PyType.any⟩] "x" = 1 ∧
    (QueryBuilder.mk exampleModel "SELECT a, b, c FROM test"
        [⟨"a", PyType.int⟩, ⟨"x", PyType.any⟩] true).withArg "x" PyType.bool =
      ("$2", QueryBuilder.mk exampleModel "SELECT a, b, c FROM test"
        [⟨"a", PyType.int⟩, ⟨"x", PyType.any⟩] true) ∧
    typeOfName [⟨"a", PyType.int⟩, ⟨"x", PyType.any⟩] "x" = some PyType.any := by
  have H := argument_reuse_idempotent (Query.select exampleModel none none)
    "a = \x7b.a\x7d AND x = \x7bx\x7d AND y = \x7b.a\x7d AND z = \x7bx: str\x7d"
    "a = $1 AND x = $2 AND y = $1 AND z = $2"
    (QueryBuilder.mk exampleModel "SELECT a, b, c FROM test"
      [⟨"a", PyType.int⟩, ⟨"x", PyType.any⟩] true)
    [⟨"a", "$1", PyType.int⟩, ⟨"x", "$2", PyType.any⟩,
     ⟨"a", "$1", PyType.int⟩, ⟨"x", "$2", PyType.str⟩]
    (by simp [NamesNodup, argNames, Query.select]) (by decide)
  refine ⟨H.2.1 ⟨"x", "$2", PyType.str⟩ (by decide), ?_, ?_⟩
  · exact H.2.2.1 ⟨"x", "$2", PyType.str⟩ (by decide) PyType.bool
  · exact (H.2.2.2.1 "x").trans (by decide)

/-! ## Round-trip of the JSON collaborator -/

theorem digitChar_isDigit {d : Nat} (h : d < 10) :
    (digitChar d).isDigit = true := by
  interval_cases d <;> decide

theorem digitVal_digitChar {d : Nat} (h : d < 10) :
    digitVal (digitChar d) = d := by
  interval_cases d <;> decide

theorem isDigit_facts {c : Char} (h : c.isDigit = true) :
    c ≠ '-' ∧ c ≠ 'n' ∧ c ≠ 't' ∧ c ≠ 'f' ∧ c ≠ '"' ∧ c ≠ '[' ∧ c ≠ '{' ∧
    isWsChar c = false := by
  refine ⟨?_, ?_, ?_, ?_, ?_, ?_, ?_, ?_⟩
  · intro he; rw [he] at h; exact absurd h (by decide)
  · intro he; rw [he] at h; exact absurd h (by decide)
  · intro he; rw [he] at h; exact absurd h (by decide)
  · intro he; rw [he] at h; exact absurd h (by decide)
  · intro he; rw [he] at h; exact absurd h (by decide)
  · intro he; rw [he] at h; exact absurd h (by decide)
  · intro he; rw [he] at h; exact absurd h (by decide)
  · cases hw : isWsChar c with
    | false => rfl
    | true =>
      exfalso
      unfold isWsChar at hw
      rcases (by simpa using hw : c = ' ' ∨ c = '\t' ∨ c = '\n' ∨ c = '\r') with
        h1 | h1 | h1 | h1 <;> (rw [h1] at h; exact absurd h (by decide))

theorem natToDigits_all_digits (n : Nat) :
    ∀ c ∈ natToDigits n, c.isDigit = true := by
  induction n using Nat.strong_induction_on with
  | _ n ih =>
    rw [natToDigits]
    by_cases h : n < 10
    · rw [dif_pos h]
      intro c hc
      rw [List.mem_singleton.mp hc]
      exact digitChar_isDigit h
    · rw [dif_neg h]
      intro c hc
      rcases List.mem_append.mp hc with hc | hc
      · exact ih (n / 10) (Nat.div_lt_self (by omega) (by omega)) c hc
      · rw [List.mem_singleton.mp hc]
        exact digitChar_isDigit (Nat.mod_lt n (by omega))

theorem natToDigits_ne_nil (n : Nat) : natToDigits n ≠ [] := by
  rw [natToDigits]
  by_cases h : n < 10
  · rw [dif_pos h]
    simp
  · rw [dif_neg h]
    intro hcontra
    exact absurd (List.append_eq_nil.mp hcontra).2 (by simp)

theorem digitsToNat_append_singleton (xs : List Char) (c : Char) :
    digitsToNat (xs ++ [c]) = 10 * digitsToNat xs + digitVal c := by
  unfold digitsToNat
  rw [List.foldl_append]
  rfl

theorem digitsToNat_natToDigits (n : Nat) :
    digitsToNat (natToDigits n) = n := by
  induction n using Nat.strong_induction_on with
  | _ n ih =>
    rw [natToDigits]
    by_cases h : n < 10
    · rw [dif_pos h]
      show digitsToNat [digitChar n] = n
      unfold digitsToNat
      simp [digitVal_digitChar h]
    · rw [dif_neg h]
      rw [digitsToNat_append_singleton,
        ih (n / 10) (Nat.div_lt_self (by omega) (by omega)),
        digitVal_digitChar (Nat.mod_lt n (by omega))]
      omega

theorem takeWhile_append_of_all {p : Char → Bool} :
    ∀ (xs ys : List Char), (∀ c ∈ xs, p c = true) →
      (xs ++ ys).takeWhile p = xs ++ ys.takeWhile p ∧
      (xs ++ ys).dropWhile p = ys.dropWhile p := by
  intro xs
  induction xs with
  | nil => intro ys h; simp
  | cons c rest ih =>
    intro ys h
    have hc : p c = true := h c (List.mem_cons_self c rest)
    have hrec := ih ys (fun x hx => h x (List.mem_cons_of_mem c hx))
    constructor
    · rw [List.cons_append, List.takeWhile_cons, hc]
      simp [hrec.1]
    · rw [List.cons_append, List.dropWhile_cons, hc]
      simp [hrec.2]

theorem takeWhile_head_false_digit (ys : List Char) (h : goodFollow ys) :
    ys.takeWhile Char.isDigit = [] ∧ ys.dropWhile Char.isDigit = ys := by
  cases ys with
  | nil => simp
  | cons c tl =>
    unfold goodFollow at h
    constructor
    · simp [List.takeWhile_cons, h]
    · simp [List.dropWhile_cons, h]

theorem parseNumber_print (n : Int) (rest : List Char) (h : goodFollow rest) :
    parseNumber (intToChars n ++ rest) = some (n, rest) := by
  have hrest := takeWhile_head_false_digit rest h
  unfold intToChars
  by_cases hn : n < 0
  · rw [if_pos hn, List.cons_append]
    have hall := natToDigits_all_digits (-n).toNat
    have happ := takeWhile_append_of_all (natToDigits (-n).toNat) rest hall
    simp only [parseNumber]
    rw [if_pos trivial]
    simp only [happ.1, happ.2, hrest.1, hrest.2, List.append_nil]
    rw [if_neg (by simpa using natToDigits_ne_nil (-n).toNat)]
    rw [digitsToNat_natToDigits]
    have hcast : (((-n).toNat : Int)) = -n := Int.toNat_of_nonneg (by omega)
    rw [hcast]
    simp
  · push_neg at hn
    rw [if_neg (by omega)]
    rcases hsh : natToDigits n.toNat with _ | ⟨c, tl⟩
    · exact absurd hsh (natToDigits_ne_nil n.toNat)
    · have hcdig : c.isDigit = true :=
        natToDigits_all_digits n.toNat c (by rw [hsh]; exact List.mem_cons_self c tl)
      have hall := natToDigits_all_digits n.toNat
      have happ := takeWhile_append_of_all (natToDigits n.toNat) rest hall
      rw [hsh] at happ
      simp only [List.cons_append] at happ ⊢
      simp only [parseNumber]
      rw [if_neg (isDigit_facts hcdig).1]
      simp only [happ.1, happ.2, hrest.1, hrest.2, List.append_nil]
      rw [if_neg (by simp : ¬((c :: tl).isEmpty = true))]
      rw [← hsh, digitsToNat_natToDigits, Int.toNat_of_nonneg hn]

theorem parseStrChars_escape :
    ∀ (s rest : List Char),
      parseStrChars (escapeChars s ++ '"' :: rest) = some (s, rest) := by
  intro s
  induction s with
  | nil =>
    intro rest
    simp only [escapeChars, List.flatMap_nil, List.nil_append]
    rw [parseStrChars.eq_def]
    simp
  | cons c tl ih =>
    intro rest
    have hesc : escapeChars (c :: tl) = escapeStringChar c ++ escapeChars tl := by
      simp [escapeChars]
    rw [hesc]
    by_cases hc : c = '"' ∨ c = '\\'
    · rw [show escapeStringChar c = ['\\', c] from by simp [escapeStringChar, hc]]
      have hlist : (['\\', c] ++ escapeChars tl) ++ '"' :: rest =
          '\\' :: c :: (escapeChars tl ++ '"' :: rest) := by simp
      rw [hlist]
      have hstep : parseStrChars ('\\' :: c :: (escapeChars tl ++ '"' :: rest)) =
          match parseStrChars (escapeChars tl ++ '"' :: rest) with
          | none => none
          | some (s, r) => some (c :: s, r) := by
        rw [parseStrChars.eq_def]
        simp
      rw [hstep, ih rest]
    · rw [show escapeStringChar c = [c] from by simp [escapeStringChar, hc]]
      have h1 : c ≠ '"' := fun h => hc (Or.inl h)
      have h2 : c ≠ '\\' := fun h => hc (Or.inr h)
      have hlist : ([c] ++ escapeChars tl) ++ '"' :: rest =
          c :: (escapeChars tl ++ '"' :: rest) := by simp
      rw [hlist]
      have hstep : parseStrChars (c :: (escapeChars tl ++ '"' :: rest)) =
          match parseStrChars (escapeChars tl ++ '"' :: rest) with
          | none => none
          | some (s, r) => some (c :: s, r) := by
        rw [parseStrChars.eq_def]
        simp only [if_neg h1, if_neg h2]
      rw [hstep, ih rest]

theorem jsizeV_pos (v : JsonVal) : 1 ≤ jsizeV v := by
  cases v <;> simp [jsizeV]

theorem isDigit_ne_brackets {c : Char} (h : c.isDigit = true) :
    c ≠ ']' ∧ c ≠ '}' := by
  constructor
  · intro he; rw [he] at h; exact absurd h (by decide)
  · intro he; rw [he] at h; exact absurd h (by decide)

theorem intToChars_head (n : Int) :
    ∃ c tl, intToChars n = c :: tl ∧ isWsChar c = false ∧
    c ≠ ']' ∧ c ≠ '}' ∧ (c = '-' ∨ c.isDigit = true) := by
  unfold intToChars
  by_cases hn : n < 0
  · rw [if_pos hn]
    exact ⟨'-', _, rfl, by decide, by decide, by decide, Or.inl rfl⟩
  · rw [if_neg hn]
    rcases hsh : natToDigits n.toNat with _ | ⟨c, tl⟩
    · exact absurd hsh (natToDigits_ne_nil n.toNat)
    · have hcdig : c.isDigit = true :=
        natToDigits_all_digits n.toNat c (by rw [hsh]; exact List.mem_cons_self c tl)
      exact ⟨c, tl, rfl, (isDigit_facts hcdig).2.2.2.2.2.2.2,
        (isDigit_ne_brackets hcdig).1, (isDigit_ne_brackets hcdig).2,
        Or.inr hcdig⟩

theorem printJson_head (v : JsonVal) :
    ∃ c tl, printJson v = c :: tl ∧ isWsChar c = false ∧ c ≠ ']' ∧ c ≠ '}' := by
  cases v with
  | null =>
    exact ⟨'n', ['u', 'l', 'l'], by simp [printJson], by decide, by decide, by decide⟩
  | bool b =>
    cases b with
    | true =>
      exact ⟨'t', ['r', 'u', 'e'], by simp [printJson], by decide, by decide, by decide⟩
    | false =>
      exact ⟨'f', ['a', 'l', 's', 'e'], by simp [printJson], by decide, by decide, by decide⟩
  | num n =>
    obtain ⟨c, tl, hsh, hws, hb1, hb2, -⟩ := intToChars_head n
    exact ⟨c, tl, by simp [printJson, hsh], hws, hb1, hb2⟩
  | str s =>
    exact ⟨'"', escapeChars s.data ++ ['"'], by simp [printJson], by decide,
      by decide, by decide⟩
  | arr xs =>
    cases xs with
    | nil => exact ⟨'[', [']'], by simp [printJson], by decide, by decide, by decide⟩
    | cons x xs =>
      exact ⟨'[', printElems x xs ++ [']'], by simp [printJson], by decide,
        by decide, by decide⟩
  | obj ms =>
    cases ms with
    | nil => exact ⟨'{', ['}'], by simp [printJson], by decide, by decide, by decide⟩
    | cons m ms =>
      exact ⟨'{', printMembers m ms ++ ['}'], by simp [printJson], by decide,
        by decide, by decide⟩

theorem skipWs_cons_false {c : Char} (h : isWsChar c = false) (cs : List Char) :
    skipWs (c :: cs) = c :: cs := by
  simp [skipWs, List.dropWhile_cons, h]

theorem skipWs_cons_true {c : Char} (h : isWsChar c = true) (cs : List Char) :
    skipWs (c :: cs) = skipWs cs := by
  simp [skipWs, List.dropWhile_cons, h]

theorem parseJson_cons_ws {c : Char} (h : isWsChar c = true) (fuel : Nat)
    (cs : List Char) : parseJson fuel (c :: cs) = parseJson fuel cs := by
  cases fuel with
  | zero => simp [parseJson]
  | succ f => simp only [parseJson, skipWs_cons_true h]

theorem parseElemsLoop_cons_ws {c : Char} (h : isWsChar c = true) (fuel : Nat)
    (cs : List Char) : parseElemsLoop fuel (c :: cs) = parseElemsLoop fuel cs := by
  cases fuel with
  | zero => simp [parseElemsLoop]
  | succ f => simp only [parseElemsLoop, parseJson_cons_ws h]

theorem parseMembersLoop_cons_ws {c : Char} (h : isWsChar c = true) (fuel : Nat)
    (cs : List Char) :
    parseMembersLoop fuel (c :: cs) = parseMembersLoop fuel cs := by
  cases fuel with
  | zero => simp [parseMembersLoop]
  | succ f => simp only [parseMembersLoop, skipWs_cons_true h]

mutual

theorem parseJson_print (fuel : Nat) (v : JsonVal) (rest : List Char)
    (hfuel : jsizeV v ≤ fuel) (hrest : goodFollow rest) :
    parseJson fuel (printJson v ++ rest) = some (v, rest) := by
  cases fuel with
  | zero => exact absurd hfuel (by have := jsizeV_pos v; omega)
  | succ f =>
    cases v with
    | null =>
      rw [show printJson .null = ['n', 'u', 'l', 'l'] from by simp [printJson]]
      simp only [parseJson, List.cons_append, List.nil_append]
      rw [skipWs_cons_false (by decide)]
      rfl
    | bool b =>
      cases b with
      | true =>
        rw [show printJson (.bool true) = ['t', 'r', 'u', 'e'] from by
          simp [printJson]]
        simp only [parseJson, List.cons_append, List.nil_append]
        rw [skipWs_cons_false (by decide)]
        rfl
      | false =>
        rw [show printJson (.bool false) = ['f', 'a', 'l', 's', 'e'] from by
          simp [printJson]]
        simp only [parseJson, List.cons_append, List.nil_append]
        rw [skipWs_cons_false (by decide)]
        rfl
    | num n =>
      obtain ⟨c, tl, hsh, hws, -, -, hcd⟩ := intToChars_head n
      rw [show printJson (.num n) = intToChars n from by simp [printJson], hsh,
        List.cons_append]
      simp only [parseJson]
      rw [skipWs_cons_false hws]
      dsimp only []
      rcases hcd with hc | hc
      · subst hc
        rw [if_neg (by decide), if_neg (by decide), if_neg (by decide),
          if_neg (by decide), if_neg (by decide), if_neg (by decide)]
        rw [show ('-' :: (tl ++ rest)) = ('-' :: tl) ++ rest from by simp, ← hsh]
        rw [parseNumber_print n rest hrest]
      · have hf2 := isDigit_facts hc
        rw [if_neg hf2.2.1, if_neg hf2.2.2.1, if_neg hf2.2.2.2.1,
          if_neg hf2.2.2.2.2.1, if_neg hf2.2.2.2.2.2.1,
          if_neg hf2.2.2.2.2.2.2.1]
        rw [show (c :: (tl ++ rest)) = (c :: tl) ++ rest from by simp, ← hsh]
        rw [parseNumber_print n rest hrest]
    | str s =>
      rw [show printJson (.str s) = '"' :: (escapeChars s.data ++ ['"']) from by
        simp [printJson]]
      rw [show ('"' :: (escapeChars s.data ++ ['"'])) ++ rest =
        '"' :: (escapeChars s.data ++ '"' :: rest) from by simp]
      simp only [parseJson]
      rw [skipWs_cons_false (by decide)]
      dsimp only []
      rw [if_neg (by decide), if_neg (by decide), if_neg (by decide),
        if_pos rfl]
      rw [parseStrChars_escape s.data rest]
    | arr xs =>
      cases xs with
      | nil =>
        rw [show printJson (.arr []) = ['[', ']'] from by simp [printJson]]
        simp only [parseJson, List.cons_append, List.nil_append]
        rw [skipWs_cons_false (by decide)]
        dsimp only []
        rw [if_neg (by decide), if_neg (by decide), if_neg (by decide),
          if_neg (by decide), if_pos rfl]
        rw [skipWs_cons_false (by decide)]
        rfl
      | cons x xs' =>
        rw [show printJson (.arr (x :: xs')) =
          '[' :: (printElems x xs' ++ [']']) from by simp [printJson]]
        rw [show ('[' :: (printElems x xs' ++ [']'])) ++ rest =
          '[' :: (printElems x xs' ++ ']' :: rest) from by simp]
        simp only [parseJson]
        rw [skipWs_cons_false (by decide)]
        dsimp only []
        rw [if_neg (by decide), if_neg (by decide), if_neg (by decide),
          if_neg (by decide), if_pos rfl]
        obtain ⟨c, tl, hh, hws, hne1, hne2⟩ := printJson_head x
        have hshape : ∃ tlE, printElems x xs' ++ ']' :: rest = c :: tlE := by
          cases xs' with
          | nil =>
            exact ⟨tl ++ ']' :: rest, by simp [printElems, hh]⟩
          | cons y ys =>
            exact ⟨tl ++ ',' :: ' ' :: printElems y ys ++ ']' :: rest, by
              simp [printElems, hh]⟩
        obtain ⟨tlE, htlE⟩ := hshape
        rw [htlE, skipWs_cons_false hws]
        have hloop : parseElemsLoop f (c :: tlE) = some (x :: xs', rest) := by
          rw [← htlE]
          exact parseElemsLoop_print f x xs' rest
            (by simp [jsizeV, jsizeE] at hfuel ⊢; omega)
        split
        · next rest2 heq =>
          exfalso
          exact hne1 (by injection heq.symm with h1 h2; exact h1.symm)
        · next hne =>
          rw [hloop]
    | obj ms =>
      cases ms with
      | nil =>
        rw [show printJson (.obj []) = ['{', '}'] from by simp [printJson]]
        simp only [parseJson, List.cons_append, List.nil_append]
        rw [skipWs_cons_false (by decide)]
        dsimp only []
        rw [if_neg (by decide), if_neg (by decide), if_neg (by decide),
          if_neg (by decide), if_neg (by decide), if_pos rfl]
        rw [skipWs_cons_false (by decide)]
        rfl
      | cons m ms' =>
        rw [show printJson (.obj (m :: ms')) =
          '{' :: (printMembers m ms' ++ ['}']) from by simp [printJson]]
        rw [show ('{' :: (printMembers m ms' ++ ['}'])) ++ rest =
          '{' :: (printMembers m ms' ++ '}' :: rest) from by simp]
        simp only [parseJson]
        rw [skipWs_cons_false (by decide)]
        dsimp only []
        rw [if_neg (by decide), if_neg (by decide), if_neg (by decide),
          if_neg (by decide), if_neg (by decide), if_pos rfl]
        obtain ⟨k, v⟩ := m
        have hshape : ∃ tlM, printMembers (k, v) ms' ++ '}' :: rest = '"' :: tlM := by
          cases ms' with
          | nil =>
            exact ⟨(escapeChars k.data ++ '"' :: ':' :: ' ' :: printJson v) ++
              '}' :: rest, by simp [printMembers]⟩
          | cons m2 ms2 =>
            exact ⟨(escapeChars k.data ++ '"' :: ':' :: ' ' :: printJson v) ++
              ',' :: ' ' :: printMembers m2 ms2 ++ '}' :: rest, by
                simp [printMembers]⟩
        obtain ⟨tlM, htlM⟩ := hshape
        rw [htlM, skipWs_cons_false (by decide)]
        have hloop : parseMembersLoop f ('"' :: tlM) = some ((k, v) :: ms', rest) := by
          rw [← htlM]
          exact parseMembersLoop_print f (k, v) ms' rest
            (by simp [jsizeV, jsizeM] at hfuel ⊢; omega)
        split
        · next rest2 heq =>
          exact absurd heq.symm (by simp)
        · next hne =>
          rw [hloop]
termination_by fuel

theorem parseElemsLoop_print (fuel : Nat) (x : JsonVal) (xs : List JsonVal)
    (rest : List Char) (hfuel : jsizeE (x :: xs) ≤ fuel) :
    parseElemsLoop fuel (printElems x xs ++ ']' :: rest) = some (x :: xs, rest) := by
  cases fuel with
  | zero =>
    exfalso
    have := jsizeV_pos x
    simp [jsizeE] at hfuel
  | succ f =>
    cases xs with
    | nil =>
      rw [show printElems x [] = printJson x from by simp [printElems]]
      simp only [parseElemsLoop]
      rw [parseJson_print f x (']' :: rest)
        (by simp [jsizeE] at hfuel; omega) (by simp [goodFollow])]
      dsimp only []
      rw [skipWs_cons_false (by decide)]
      rfl
    | cons y ys =>
      rw [show printElems x (y :: ys) =
        printJson x ++ ',' :: ' ' :: printElems y ys from by simp [printElems]]
      rw [show (printJson x ++ ',' :: ' ' :: printElems y ys) ++ ']' :: rest =
        printJson x ++ ',' :: ' ' :: (printElems y ys ++ ']' :: rest) from by
          simp]
      simp only [parseElemsLoop]
      rw [parseJson_print f x (',' :: ' ' :: (printElems y ys ++ ']' :: rest))
        (by simp [jsizeE] at hfuel ⊢; omega) (by simp [goodFollow])]
      dsimp only []
      rw [skipWs_cons_false (by decide)]
      have hloop := parseElemsLoop_print f y ys rest
        (by simp [jsizeE] at hfuel ⊢; omega)
      simp only [parseElemsLoop_cons_ws (show isWsChar ' ' = true from by decide) f]
      simp [hloop]
termination_by fuel

theorem parseMembersLoop_print (fuel : Nat) (m : String × JsonVal)
    (ms : List (String × JsonVal)) (rest : List Char)
    (hfuel : jsizeM (m :: ms) ≤ fuel) :
    parseMembersLoop fuel (printMembers m ms ++ '}' :: rest) =
      some (m :: ms, rest) := by
  cases fuel with
  | zero =>
    exfalso
    obtain ⟨k, v⟩ := m
    have := jsizeV_pos v
    simp [jsizeM] at hfuel
  | succ f =>
    obtain ⟨k, v⟩ := m
    cases ms with
    | nil =>
      rw [show printMembers (k, v) [] =
        '"' :: escapeChars k.data ++ '"' :: ':' :: ' ' :: printJson v from by
          simp [printMembers]]
      rw [show ('"' :: escapeChars k.data ++ '"' :: ':' :: ' ' :: printJson v) ++
        '}' :: rest =
        '"' :: (escapeChars k.data ++ '"' :: (':' :: ' ' ::
          (printJson v ++ '}' :: rest))) from by simp]
      simp only [parseMembersLoop]
      rw [skipWs_cons_false (by decide)]
      have hv := parseJson_print f v ('}' :: rest)
        (by simp [jsizeM] at hfuel; omega) (by simp [goodFollow])
      simp [parseStrChars_escape, hv, skipWs_cons_false, isWsChar,
        parseJson_cons_ws]
    | cons m2 ms2 =>
      rw [show printMembers (k, v) (m2 :: ms2) =
        ('"' :: escapeChars k.data ++ '"' :: ':' :: ' ' :: printJson v) ++
          ',' :: ' ' :: printMembers m2 ms2 from by simp [printMembers]]
      rw [show (('"' :: escapeChars k.data ++ '"' :: ':' :: ' ' :: printJson v) ++
        ',' :: ' ' :: printMembers m2 ms2) ++ '}' :: rest =
        '"' :: (escapeChars k.data ++ '"' :: (':' :: ' ' ::
          (printJson v ++ ',' :: ' ' :: (printMembers m2 ms2 ++ '}' :: rest))))
        from by simp]
      simp only [parseMembersLoop]
      rw [skipWs_cons_false (by decide)]
      have hv := parseJson_print f v
        (',' :: ' ' :: (printMembers m2 ms2 ++ '}' :: rest))
        (by simp [jsizeM] at hfuel ⊢; omega) (by simp [goodFollow])
      have hms := parseMembersLoop_print f m2 ms2 rest
        (by simp [jsizeM] at hfuel ⊢; omega)
      simp [parseStrChars_escape, hv, hms, skipWs_cons_false, isWsChar,
        parseJson_cons_ws, parseMembersLoop_cons_ws]
termination_by fuel

end

mutual

theorem jsizeV_le_print (v : JsonVal) : jsizeV v ≤ (printJson v).length + 1 := by
  cases v with
  | null => simp [jsizeV, printJson]
  | bool b => cases b <;> simp [jsizeV, printJson]
  | num n => simp [jsizeV]
  | str s => simp [jsizeV, printJson]
  | arr xs =>
    cases xs with
    | nil => simp [jsizeV, jsizeE, printJson]
    | cons x xs' =>
      have h := jsizeE_le_print x xs'
      simp only [jsizeV, printJson, List.length_cons, List.length_append,
        List.length_singleton]
      omega
  | obj ms =>
    cases ms with
    | nil => simp [jsizeV, jsizeM, printJson]
    | cons m ms' =>
      have h := jsizeM_le_print m ms'
      simp only [jsizeV, printJson, List.length_cons, List.length_append,
        List.length_singleton]
      omega
termination_by sizeOf v

theorem jsizeE_le_print (x : JsonVal) (xs : List JsonVal) :
    jsizeE (x :: xs) ≤ (printElems x xs).length + 2 := by
  cases xs with
  | nil =>
    have h := jsizeV_le_print x
    simp only [jsizeE, printElems]
    omega
  | cons y ys =>
    have h1 := jsizeV_le_print x
    have h2 := jsizeE_le_print y ys
    simp only [jsizeE] at h2
    simp only [jsizeE, printElems, List.length_append, List.length_cons]
    omega
termination_by sizeOf x + sizeOf xs

theorem jsizeM_le_print (m : String × JsonVal) (ms : List (String × JsonVal)) :
    jsizeM (m :: ms) ≤ (printMembers m ms).length + 2 := by
  obtain ⟨k, v⟩ := m
  cases ms with
  | nil =>
    have h := jsizeV_le_print v
    simp only [jsizeM, printMembers, List.length_cons, List.length_append]
    omega
  | cons m2 ms2 =>
    have h1 := jsizeV_le_print v
    have h2 := jsizeM_le_print m2 ms2
    simp only [jsizeM] at h2
    simp only [jsizeM, printMembers, List.length_cons, List.length_append]
    omega
termination_by sizeOf m + sizeOf ms

end

/-- Round trip through the modelled `json` module: parsing a printed value
recovers the value. -/
theorem json_loads_dumps (v : JsonVal) : json_loads (json_dumps v) = some v := by
  have hfuel : jsizeV v ≤ (printJson v).length + 1 := jsizeV_le_print v
  have h := parseJson_print ((printJson v).length + 1) v [] hfuel trivial
  rw [List.append_nil] at h
  unfold json_loads json_dumps
  rw [show (⟨printJson v⟩ : String).data = printJson v from rfl,
      show (⟨printJson v⟩ : String).length = (printJson v).length from rfl,
      h]
  simp [skipWs]

/-- C9: a `jsonb`-flagged argument whose call-time value is a dict is
serialized to a JSON string before binding; decoding a JSON-container field
passes an already-structured value to the declared nested type unchanged and
parses a stored string back through `json.loads`; consequently serializing a
dict and decoding the resulting string yields the identical structure, and
the stored `"null"` sentinel string decodes to the absent value `None`, not
to the string `"null"`. -/
theorem jsonb_serialization_roundtrip :
    (∀ name t d, processArgValue ⟨name, t, true⟩ (.obj d) =
      .ok (.str (json_dumps (.obj d)))) ∧
    (∀ d, JSONB.validate .any (.obj d) = .ok (.obj d)) ∧
    (∀ xs, JSONB.validate .any (.arr xs) = .ok (.arr xs)) ∧
    (∀ d, JSONB.validate .any (.str (json_dumps (.obj d))) = .ok (.obj d)) ∧
    (∀ t, JSONB.validate (.option t) (.str "null") = .ok .null) := by
  refine ⟨?_, ?_, ?_, ?_, ?_⟩
  · intro name t d
    rfl
  · intro d
    rfl
  · intro xs
    rfl
  · intro d
    simp only [JSONB.validate]
    rw [json_loads_dumps (.obj d)]
    rfl
  · intro t
    have hnull : json_loads "null" = some JsonVal.null := by
      have h0 := json_loads_dumps JsonVal.null
      rwa [show json_dumps JsonVal.null = "null" from by
        simp [json_dumps, printJson]] at h0
    simp only [JSONB.validate]
    rw [hnull]
    rfl
